import Mathlib

/-!
# Verification of the kemono-scraper download pipeline

A shallow embedding of the resilient download pipeline of the repository:
the blacklist store (`src/unnamed/part_006`), the download worker and retry
orchestrator (`src/unnamed/part_008`), the proxy pool (`src/proxyManager.ts`
and the outcome classifier in `src/unnamed/part_008`), and the post
paginator (`src/src/scraper.ts`).  Timestamps are milliseconds as `Int`
(JS `Date.now()` / parsed ISO strings), JS `Map`/`Set` are insertion-ordered
association lists / duplicate-free lists, the filesystem is a predicate
`String → Bool`, and the network is an environment function giving the
outcome of each attempt.
-/

namespace KemonoScraper

/-! ## Constants (`src/src/constants.ts`, `src/proxyManager.ts`) -/

def PAGE_SIZE : Nat := 50
def MAX_DOWNLOAD_RETRIES : Nat := 3
def DOWNLOAD_RETRY_WAIT_SECONDS : Nat := 10000
def MAX_FAILURES_BEFORE_BLACKLIST : Nat := 5
def BLACKLIST_EXPIRY_MS : Int := 2 * 24 * 60 * 60 * 1000
def MAX_RETRY_PASSES : Nat := 3
def PROXY_FAILURE_CODES : List String :=
  ["ECONNREFUSED", "ECONNRESET", "ETIMEDOUT", "EHOSTUNREACH", "ENETUNREACH"]
def DEFAULT_COOLDOWN_MS : Int := 30000

/-! ## JS `Map` / `Set` helpers

JS `Map.set` replaces the value of an existing key in place (keeping
insertion order) and appends new keys; `Map.get` returns the value or
`undefined`; `Set.add` appends if absent. -/

def mapGet {α : Type} (m : List (String × α)) (k : String) : Option α :=
  (m.find? (fun p => p.1 = k)).map (·.2)

def mapSet {α : Type} (m : List (String × α)) (k : String) (v : α) : List (String × α) :=
  if m.any (fun p => p.1 = k) then
    m.map (fun p => if p.1 = k then (k, v) else p)
  else
    m ++ [(k, v)]

def setAdd (s : List String) (x : String) : List String :=
  if s.contains x then s else s ++ [x]

/-- JS `a || b` for numbers: `0` is falsy. -/
def jsOrNat (o : Option Nat) (d : Nat) : Nat :=
  match o with
  | some n => if n = 0 then d else n
  | none => d

/-- JS `a || b` for strings: the empty string is falsy. -/
def jsOrStr (o : Option String) (d : String) : String :=
  match o with
  | some s => if s = "" then d else s
  | none => d

/-! ## Path helpers (`src/unnamed/part_006`)

`extname` follows Node `path.extname`: the suffix of the basename starting
at its last `.`, empty when the basename has no `.` or the only `.` is its
first character. -/

/-- Characters after the last occurrence of `sep` (the whole list when
`sep` does not occur). -/
def afterLast (sep : Char) (l : List Char) : List Char :=
  l.foldl (fun acc c => if c = sep then [] else acc ++ [c]) []

def lastIndexOfChar (c : Char) (l : List Char) : Option Nat :=
  (List.range l.length).foldl
    (fun acc i => if l.getD i c = c ∧ i < l.length then some i else acc) none

def extname (p : String) : String :=
  let b := afterLast '/' p.data
  match lastIndexOfChar '.' b with
  | some i => if 0 < i then ⟨b.drop i⟩ else ""
  | none => ""

/-- Node `path.basename` for forward-slash paths. -/
def jsBasename (p : String) : String :=
  ⟨afterLast '/' p.data⟩

/-- JS `s.slice(0, -n)`: note `s.slice(0, -0)` is the empty string. -/
def jsSliceDropRight (s : String) (n : Nat) : String :=
  if n = 0 then "" else ⟨s.data.take (s.data.length - n)⟩

def stringToLower (s : String) : String :=
  ⟨s.data.map Char.toLower⟩

/-- `fileExistsOrCompressed` from `src/unnamed/part_006` lines 140-161:
the destination counts as satisfied if it exists, or a `.jpg`/`.jpeg` has a
sibling `.jxl`, or a `.mp4`/`.mkv` has a sibling `_av1.mp4`.  `fsExists`
is the filesystem (`fs.pathExists`). -/
def fileExistsOrCompressed (fsExists : String → Bool) (filePath : String) : Bool :=
  if fsExists filePath then true
  else
    let ext := stringToLower (extname filePath)
    let basePath := jsSliceDropRight filePath ext.length
    if (ext = ".jpg" ∨ ext = ".jpeg") ∧ fsExists (basePath ++ ".jxl") then true
    else if (ext = ".mp4" ∨ ext = ".mkv") ∧ fsExists (basePath ++ "_av1.mp4") then true
    else false

/-! ## Blacklist store (`src/unnamed/part_006`)

The mutable parts of the `ScraperContext` that the blacklist code touches,
plus the contents of `blacklist.json` (`blacklistFileData`) so that
persistence is part of the state. -/

structure BlacklistEntry where
  filePath : String
  fileName : String
  /-- `addedAt` timestamp in ms; `none` models a missing/empty field. -/
  addedAt : Option Int
  failureCount : Nat
deriving DecidableEq

structure Ctx where
  blacklist : List String
  failureCounts : List (String × Nat)
  fileNames : List (String × String)
  addedAtDates : List (String × Int)
  blacklistFileData : List BlacklistEntry
deriving DecidableEq

def emptyCtx (origFile : List BlacklistEntry) : Ctx :=
  { blacklist := [], failureCounts := [], fileNames := [], addedAtDates := [],
    blacklistFileData := origFile }

/-- `saveBlacklist` (lines 54-72): serializes the in-memory blacklist set,
defaulting `failureCount` to 5, `fileName` to the basename and `addedAt`
to the current time (the JS `||` defaults). -/
def saveBlacklist (now : Int) (ctx : Ctx) : Ctx :=
  { ctx with blacklistFileData := ctx.blacklist.map (fun fp =>
      { filePath := fp
        fileName := jsOrStr (mapGet ctx.fileNames fp) (jsBasename fp)
        addedAt := some ((mapGet ctx.addedAtDates fp).getD now)
        failureCount := jsOrNat (mapGet ctx.failureCounts fp) MAX_FAILURES_BEFORE_BLACKLIST }) }

/-- One entry of the `loadBlacklist` loop body (lines 21-40); the `Bool`
reports whether the entry was dropped as expired. -/
def loadBlacklistEntry (now : Int) (ctx : Ctx) (e : BlacklistEntry) : Ctx × Bool :=
  if e.filePath = "" then (ctx, false)
  else
    let step (ctx : Ctx) : Ctx :=
      let ctx := { ctx with blacklist := setAdd ctx.blacklist e.filePath }
      let ctx :=
        if e.failureCount ≠ 0 then
          { ctx with failureCounts := mapSet ctx.failureCounts e.filePath e.failureCount }
        else ctx
      if e.fileName ≠ "" then
        { ctx with fileNames := mapSet ctx.fileNames e.filePath e.fileName }
      else ctx
    match e.addedAt with
    | some t =>
      if now - t > BLACKLIST_EXPIRY_MS then (ctx, true)
      else
        let ctx := { ctx with addedAtDates := mapSet ctx.addedAtDates e.filePath t }
        (step ctx, false)
    | none => (step ctx, false)

/-- One fold step of `loadBlacklist`: thread the context and the count of
expired entries. -/
def loadBlacklistStep (now : Int) (acc : Ctx × Nat) (e : BlacklistEntry) : Ctx × Nat :=
  let r := loadBlacklistEntry now acc.1 e
  (r.1, if r.2 then acc.2 + 1 else acc.2)

/-- `loadBlacklist` (lines 13-52): loads persisted entries, dropping
expired ones, and re-persists when at least one entry expired. -/
def loadBlacklist (now : Int) (data : List BlacklistEntry) (ctx : Ctx) : Ctx :=
  let r := data.foldl (loadBlacklistStep now) (ctx, 0)
  if r.2 > 0 then saveBlacklist now r.1 else r.1

/-- `addToBlacklist` (lines 74-83): adds once, records a failure count of
5, stamps `addedAt`, and persists. -/
def addToBlacklist (now : Int) (ctx : Ctx) (filePath fileName : String) : Ctx :=
  if ctx.blacklist.contains filePath then ctx
  else
    saveBlacklist now
      { ctx with
        blacklist := ctx.blacklist ++ [filePath]
        failureCounts := mapSet ctx.failureCounts filePath MAX_FAILURES_BEFORE_BLACKLIST
        fileNames := mapSet ctx.fileNames filePath fileName
        addedAtDates := mapSet ctx.addedAtDates filePath now }

/-- `recordFailure` (lines 85-94): increments the per-path failure count
and promotes to the blacklist at the threshold. -/
def recordFailure (now : Int) (ctx : Ctx) (filePath fileName : String) : Ctx :=
  let currentCount := (mapGet ctx.failureCounts filePath).getD 0
  let newCount := currentCount + 1
  let ctx :=
    { ctx with
      failureCounts := mapSet ctx.failureCounts filePath newCount
      fileNames := mapSet ctx.fileNames filePath fileName }
  if newCount ≥ MAX_FAILURES_BEFORE_BLACKLIST then
    addToBlacklist now ctx filePath fileName
  else ctx

/-! ## Download worker (`src/unnamed/part_008`, `downloadFile`)

The worker is modelled as a recursive function over the `(retries,
cdnSubdomainIndex)` state, exactly mirroring the recursive
retry-by-reinvocation of the source.  The network is an environment
`env : Nat → Nat → AttemptOutcome` giving the outcome of the attempt made
at each `(retries, cdnSubdomainIndex)` state; the filesystem is
`fsExists`.  Side effects that the claims are about are collected as an
event trace (`proxySelect`, `httpRequest`, `waitMs`); percent-encoding of
the file name in the URL is abstracted as the identity. -/

structure DomainConfig where
  baseDomain : String
  subdomains : List String
deriving DecidableEq

/-- The host picked by the URL construction at lines 192-199: the
`cdnSubdomainIndex`-th subdomain while in range, the base domain once the
index equals the subdomain count. -/
def downloadHost (cfg : DomainConfig) (cdnSubdomainIndex : Nat) : String :=
  if h : cdnSubdomainIndex < cfg.subdomains.length then
    cfg.subdomains[cdnSubdomainIndex] ++ "." ++ cfg.baseDomain
  else cfg.baseDomain

def downloadUrl (cfg : DomainConfig) (filePath fileName : String)
    (cdnSubdomainIndex : Nat) : String :=
  "https://" ++ downloadHost cfg cdnSubdomainIndex ++ "/data" ++ filePath ++ "?f=" ++ fileName

structure DownloadQueueEntry where
  filePath : String
  fileName : String
  outputPath : String
  taskId : String
deriving DecidableEq

/-- Outcome of one HTTP attempt, as `downloadFile` distinguishes them:
a delivered response (with the fate of the subsequent body stream), a
caught axios error (connection code / abort flag / optional response
status), or a caught non-axios error. -/
inductive AttemptOutcome where
  | resp (status : Nat) (streamOk : Bool)
  | axiosErr (code : Option String) (isAbort : Bool) (status : Option Nat)
  | otherErr (isTimeout : Bool)
deriving DecidableEq

/-- The condition of line 439: `ECONNRESET`/`ECONNABORTED`/`ETIMEDOUT` or
an abort/cancel. -/
def isConnError (code : Option String) (isAbort : Bool) : Bool :=
  code = some "ECONNRESET" ∨ code = some "ECONNABORTED" ∨
    code = some "ETIMEDOUT" ∨ isAbort

inductive Ev where
  | proxySelect (url : String)
  | httpRequest (url : String)
  | waitMs (n : Nat)
deriving DecidableEq

inductive TaskResult where
  | skippedBlacklisted
  | alreadyExists
  | blacklisted500
  | downloaded
  /-- the attempt threw to the caller: failed for this pass -/
  | failedPass
deriving DecidableEq

def downloadFile (cfg : DomainConfig) (fsExists : String → Bool)
    (env : Nat → Nat → AttemptOutcome) (now : Int)
    (ctx : Ctx) (entry : DownloadQueueEntry)
    (retries : Nat) (cdnSubdomainIndex : Nat) : Ctx × TaskResult × List Ev :=
  if ctx.blacklist.contains entry.filePath then
    (ctx, .skippedBlacklisted, [])
  else if fileExistsOrCompressed fsExists entry.outputPath then
    (ctx, .alreadyExists, [])
  else
    let url := downloadUrl cfg entry.filePath entry.fileName cdnSubdomainIndex
    let evs := [Ev.proxySelect url, Ev.httpRequest url]
    match env retries cdnSubdomainIndex with
    | .resp status streamOk =>
      if status = 500 then
        (addToBlacklist now ctx entry.filePath entry.fileName, .blacklisted500, evs)
      else if streamOk then
        (ctx, .downloaded, evs)
      else
        -- stream-level failure: `safeReject` records the failure and the
        -- rejection propagates to the caller uncaught (the `return
        -- Promise.race` at line 422 is outside the catch)
        (recordFailure now ctx entry.filePath entry.fileName, .failedPass, evs)
    | .axiosErr code isAbort status =>
      if isConnError code isAbort then
        let ctx := recordFailure now ctx entry.filePath entry.fileName
        if retries < MAX_DOWNLOAD_RETRIES then
          if cdnSubdomainIndex < cfg.subdomains.length - 1 then
            let r := downloadFile cfg fsExists env now ctx entry retries (cdnSubdomainIndex + 1)
            (r.1, r.2.1, evs ++ r.2.2)
          else
            let r := downloadFile cfg fsExists env now ctx entry (retries + 1) 0
            (r.1, r.2.1, evs ++ Ev.waitMs DOWNLOAD_RETRY_WAIT_SECONDS :: r.2.2)
        else (ctx, .failedPass, evs)
      else if status = some 500 then
        (addToBlacklist now ctx entry.filePath entry.fileName, .blacklisted500, evs)
      else if cdnSubdomainIndex < cfg.subdomains.length - 1 then
        let r := downloadFile cfg fsExists env now ctx entry retries (cdnSubdomainIndex + 1)
        (r.1, r.2.1, evs ++ r.2.2)
      else if retries < MAX_DOWNLOAD_RETRIES then
        let r := downloadFile cfg fsExists env now ctx entry (retries + 1) 0
        (r.1, r.2.1, evs ++ Ev.waitMs DOWNLOAD_RETRY_WAIT_SECONDS :: r.2.2)
      else
        (recordFailure now ctx entry.filePath entry.fileName, .failedPass, evs)
    | .otherErr isTimeout =>
      let ctx := recordFailure now ctx entry.filePath entry.fileName
      if isTimeout ∧ retries < MAX_DOWNLOAD_RETRIES then
        let r := downloadFile cfg fsExists env now ctx entry (retries + 1) 0
        (r.1, r.2.1, evs ++ Ev.waitMs DOWNLOAD_RETRY_WAIT_SECONDS :: r.2.2)
      else (ctx, .failedPass, evs)
termination_by (MAX_DOWNLOAD_RETRIES + 1 - retries, cfg.subdomains.length - cdnSubdomainIndex)
decreasing_by
  all_goals simp_wf
  · right; omega
  · left; omega
  · right; omega
  · left; omega
  · left; omega

/-! ## One pass of the worker pool (`downloadFiles`, lines 518-557)

The bounded-concurrency pool is modelled as a sequential run over the
queue (one linearization); a task lands in `failed` exactly when its
`downloadFile` invocation threw
(`TaskResult.failedPass`).  The environment is per-entry.  The event
traces of all tasks are concatenated. -/

def downloadFiles (cfg : DomainConfig) (fsExists : String → Bool)
    (env : DownloadQueueEntry → Nat → Nat → AttemptOutcome) (now : Int)
    (ctx : Ctx) (queue : List DownloadQueueEntry) (completedSoFar : Nat) :
    Ctx × Nat × List DownloadQueueEntry × List Ev :=
  match queue with
  | [] => (ctx, completedSoFar, [], [])
  | entry :: rest =>
    let r := downloadFile cfg fsExists (env entry) now ctx entry 0 0
    let completed := if r.2.1 = TaskResult.failedPass then completedSoFar else completedSoFar + 1
    let rec' := downloadFiles cfg fsExists env now r.1 rest completed
    (rec'.1, rec'.2.1,
      (if r.2.1 = TaskResult.failedPass then [entry] else []) ++ rec'.2.2.1,
      r.2.2 ++ rec'.2.2.2)

/-- The re-minting of task identifiers at lines 572-575:
`dl-retry-{passNumber}-{++globalTaskCounter}`. -/
def remintTaskIds (passNumber : Nat) (counter : Nat) :
    List DownloadQueueEntry → List DownloadQueueEntry × Nat
  | [] => ([], counter)
  | e :: rest =>
    let c := counter + 1
    let r := remintTaskIds passNumber c rest
    ({ e with taskId := "dl-retry-" ++ toString passNumber ++ "-" ++ toString c } :: r.1, r.2)

/-- What one orchestrator pass ran: whether it was preceded by the
inter-pass wait, the context at its start, and the queue it processed. -/
structure PassLog where
  waitedMs : Option Nat
  ctxBefore : Ctx
  queue : List DownloadQueueEntry
deriving DecidableEq

/-- The `while` loop of `downloadAllWithRetries` (lines 565-586). -/
def downloadPassLoop (cfg : DomainConfig) (fsExists : String → Bool)
    (env : DownloadQueueEntry → Nat → Nat → AttemptOutcome) (now : Int)
    (ctx : Ctx) (currentQueue : List DownloadQueueEntry)
    (completedTotal : Nat) (passNumber : Nat) (taskCounter : Nat)
    (logs : List PassLog) :
    Ctx × Nat × List DownloadQueueEntry × Nat × List PassLog :=
  if h : currentQueue.length > 0 ∧ passNumber < MAX_RETRY_PASSES then
    let passNumber' := passNumber + 1
    let reminted :=
      if passNumber' > 1 then
        let r := remintTaskIds passNumber' taskCounter currentQueue
        (r.1, r.2, some 5000)
      else (currentQueue, taskCounter, (none : Option Nat))
    let result := downloadFiles cfg fsExists env now ctx reminted.1 completedTotal
    let nextQueue := result.2.2.1.filter (fun t => ¬ result.1.blacklist.contains t.filePath)
    downloadPassLoop cfg fsExists env now result.1 nextQueue result.2.1 passNumber'
      reminted.2.1
      (logs ++ [{ waitedMs := reminted.2.2, ctxBefore := ctx, queue := reminted.1 }])
  else
    (ctx, completedTotal, currentQueue, taskCounter, logs)
termination_by MAX_RETRY_PASSES - passNumber
decreasing_by simp_wf; omega

/-- `downloadAllWithRetries` (lines 559-598): up to `MAX_RETRY_PASSES`
passes, then every still-failing task is unconditionally blacklisted.
Returns the final context, the completed count, the final failed list and
the pass logs. -/
def downloadAllWithRetries (cfg : DomainConfig) (fsExists : String → Bool)
    (env : DownloadQueueEntry → Nat → Nat → AttemptOutcome) (now : Int)
    (ctx : Ctx) (downloadQueue : List DownloadQueueEntry) :
    Ctx × Nat × List DownloadQueueEntry × List PassLog :=
  let r := downloadPassLoop cfg fsExists env now ctx downloadQueue 0 0 0 []
  let finalFailed := r.2.2.1
  let ctx := finalFailed.foldl (fun c t => addToBlacklist now c t.filePath t.fileName) r.1
  (ctx, r.2.1, finalFailed, r.2.2.2.2)

/-! ## Proxy pool (`src/proxyManager.ts`) -/

structure ProxyEntry where
  id : String
  cooldownUntil : Int
  consecutiveFailures : Nat
deriving DecidableEq

structure ProxyManager where
  entries : List ProxyEntry
  currentIndex : Nat
  cooldownMs : Int
deriving DecidableEq

/-- The constructor (lines 81-97): entry `i` gets id `proxy-i`, no
cooldown, no failures; the cursor starts at 0. -/
def mkProxyManager (n : Nat) (cooldownMs : Int := DEFAULT_COOLDOWN_MS) : ProxyManager :=
  { entries := (List.range n).map (fun i =>
      { id := "proxy-" ++ toString i, cooldownUntil := 0, consecutiveFailures := 0 })
    currentIndex := 0
    cooldownMs := cooldownMs }

/-- The candidate scan of `getNextProxy` (lines 120-138): try indices
`(currentIndex + i) % length` for `i = 0, 1, ...` while fuel remains,
skipping entries still cooling down. -/
def findAvailableFrom (entries : List ProxyEntry) (now : Int) (start i fuel : Nat) :
    Option Nat :=
  match fuel with
  | 0 => none
  | f + 1 =>
    let index := (start + i) % entries.length
    match entries[index]? with
    | none => none
    | some c =>
      if c.cooldownUntil > now then findAvailableFrom entries now start (i + 1) f
      else some index

/-- `getNextProxy` (lines 112-141): round-robin selection skipping
cooling entries; advances the cursor just past the selected entry. -/
def getNextProxy (pm : ProxyManager) (now : Int) : Option String × ProxyManager :=
  if pm.entries.length = 0 then (none, pm)
  else
    match findAvailableFrom pm.entries now pm.currentIndex 0 pm.entries.length with
    | none => (none, pm)
    | some index =>
      match pm.entries[index]? with
      | none => (none, pm)
      | some c => (some c.id, { pm with currentIndex := (index + 1) % pm.entries.length })

/-- Replace the first element satisfying `p` (JS `Array.find` followed by
mutation of the found entry). -/
def updateFirst {α : Type} (p : α → Bool) (f : α → α) : List α → List α
  | [] => []
  | x :: xs => if p x then f x :: xs else x :: updateFirst p f xs

/-- `reportFailure` (lines 143-148). -/
def reportFailure (pm : ProxyManager) (proxyId : String) (now : Int) : ProxyManager :=
  let penalize := fun (e : ProxyEntry) =>
    { e with consecutiveFailures := e.consecutiveFailures + 1
             cooldownUntil := now + pm.cooldownMs }
  { pm with entries := updateFirst (fun e => e.id = proxyId) penalize pm.entries }

/-- `reportSuccess` (lines 150-155). -/
def reportSuccess (pm : ProxyManager) (proxyId : String) : ProxyManager :=
  let clear := fun (e : ProxyEntry) =>
    { e with consecutiveFailures := 0, cooldownUntil := 0 }
  { pm with entries := updateFirst (fun e => e.id = proxyId) clear pm.entries }

/-- `n` consecutive `getNextProxy` calls, collecting the selections. -/
def selectN (pm : ProxyManager) (now : Int) : Nat → List (Option String) × ProxyManager
  | 0 => ([], pm)
  | n + 1 =>
    let r := getNextProxy pm now
    let rest := selectN r.2 now n
    (r.1 :: rest.1, rest.2)

/-! ## Proxy outcome classification (`src/unnamed/part_008`, lines 60-117) -/

/-- An error as `shouldCooldownProxy` inspects it: an axios error carries
an optional `code` and an optional response status; anything else is a
non-axios error. -/
inductive ReqError where
  | axios (code : Option String) (respStatus : Option Nat)
  | nonAxios
deriving DecidableEq

/-- `shouldCooldownProxy` (lines 60-71). -/
def shouldCooldownProxy (error : Option ReqError) : Bool :=
  match error with
  | none => false
  | some .nonAxios => true
  | some (.axios code respStatus) =>
    match respStatus with
    | none =>
      match code with
      | some c => PROXY_FAILURE_CODES.contains c
      | none => false
    | some s => s = 407

/-- `recordProxyOutcome` (lines 107-117). -/
def recordProxyOutcome (pm : Option ProxyManager) (selection : Option String)
    (error : Option ReqError) (now : Int) : Option ProxyManager :=
  match pm, selection with
  | some m, some sel =>
    if error.isSome ∧ shouldCooldownProxy error then some (reportFailure m sel now)
    else if error.isNone then some (reportSuccess m sel)
    else some m
  | _, _ => pm

/-- The penalization condition exactly as the specification words it:
"connection refused/reset/timeout, unreachable host/network, or HTTP
407".  Used to compare the specified condition with the implemented
`shouldCooldownProxy`. -/
def specProxyAttributable (error : ReqError) : Bool :=
  match error with
  | .axios code none =>
    -- a connection-level failure: refused/reset/timeout, unreachable
    -- host/network
    match code with
    | some c => PROXY_FAILURE_CODES.contains c
    | none => false
  | .axios _ (some s) => s = 407
  | .nonAxios => false

/-! ## Post paginator (`src/src/scraper.ts`, lines 28-88)

`fetch offset` is the environment: `none` models a thrown fetch error,
`some posts` the page at that offset.  Post identifiers are abstracted to
an arbitrary decidable type. -/

inductive StopReason where
  | emptyPage
  | noNewPosts
  | dupRatioHigh
  | shortPage
  | maxPostsReached
  | offsetCeiling
  | fetchError
deriving DecidableEq

/-- The inner `for` loop (lines 39-45): thread the seen-set and the post
list through the fetched page, counting posts not yet seen. -/
def addNewPosts {α : Type} [DecidableEq α] (seen posts : List α) :
    List α → List α × List α × Nat
  | [] => (seen, posts, 0)
  | id :: rest =>
    if seen.contains id then addNewPosts seen posts rest
    else
      let r := addNewPosts (seen ++ [id]) (posts ++ [id]) rest
      (r.1, r.2.1, r.2.2 + 1)

/-- The substitution of the post-count limit at line 68:
`ctx.maxPosts > 0 ? ctx.maxPosts : 5000`. -/
def maxPostsLimit (maxPosts : Int) : Int :=
  if maxPosts > 0 then maxPosts else 5000

/-- The outcome of a pagination run: the collected posts, the
termination reason, and the offsets at which a page was fetched (so that
"stops fetching further pages" is observable). -/
structure PageResult (α : Type) where
  posts : List α
  reason : StopReason
  offsets : List Nat
deriving DecidableEq

/-- The pagination `while` loop of `scrapeCreator` (lines 28-88). -/
def paginateLoop {α : Type} [DecidableEq α] (fetch : Nat → Option (List α))
    (maxPosts : Int) (offset : Nat) (seen posts : List α) : PageResult α :=
  match fetch offset with
  | none => ⟨posts, .fetchError, [offset]⟩
  | some fetchedPosts =>
    if fetchedPosts.length = 0 then ⟨posts, .emptyPage, [offset]⟩
    else
      let r := addNewPosts seen posts fetchedPosts
      let seen' := r.1
      let posts' := r.2.1
      let newPosts := r.2.2
      if newPosts = 0 then ⟨posts', .noNewPosts, [offset]⟩
      else if ((fetchedPosts.length - newPosts : ℚ) / fetchedPosts.length > 9 / 10)
          ∧ posts'.length > 100 then
        ⟨posts', .dupRatioHigh, [offset]⟩
      else if fetchedPosts.length < PAGE_SIZE then ⟨posts', .shortPage, [offset]⟩
      else if (posts'.length : Int) ≥ maxPostsLimit maxPosts then
        ⟨posts', .maxPostsReached, [offset]⟩
      else if offset ≥ 10000 then ⟨posts', .offsetCeiling, [offset]⟩
      else
        let rec' := paginateLoop fetch maxPosts (offset + PAGE_SIZE) seen' posts'
        ⟨rec'.posts, rec'.reason, offset :: rec'.offsets⟩
termination_by 10000 + PAGE_SIZE - offset
decreasing_by simp_wf; simp only [PAGE_SIZE] at *; omega

/-- The paginator from its initial state (`offset = 0`, nothing seen). -/
def paginate {α : Type} [DecidableEq α] (fetch : Nat → Option (List α))
    (maxPosts : Int) : PageResult α :=
  paginateLoop fetch maxPosts 0 [] []

/-! ## Theorems -/

/-- C7: the existence check reports a destination as already satisfied
exactly when the exact output path exists, or the path has a
`.jpg`/`.jpeg` extension and a sibling `.jxl` exists, or it has a
`.mp4`/`.mkv` extension and a sibling `_av1.mp4` exists; in particular
with `photo.jpg` absent but `photo.jxl` present the check reports
satisfied and the worker finishes the task without any network call. -/
theorem c7_existence_check :
    (∀ (fsExists : String → Bool) (p : String),
      fileExistsOrCompressed fsExists p = true ↔
        (fsExists p = true ∨
          ((stringToLower (extname p) = ".jpg" ∨ stringToLower (extname p) = ".jpeg") ∧
            fsExists (jsSliceDropRight p (stringToLower (extname p)).length ++ ".jxl") = true) ∨
          ((stringToLower (extname p) = ".mp4" ∨ stringToLower (extname p) = ".mkv") ∧
            fsExists (jsSliceDropRight p (stringToLower (extname p)).length ++ "_av1.mp4") = true)))
    ∧ fileExistsOrCompressed (fun s => decide (s = "photo.jxl")) "photo.jpg" = true
    ∧ ∀ (cfg : DomainConfig) (env : Nat → Nat → AttemptOutcome) (now : Int)
        (ctx : Ctx) (entry : DownloadQueueEntry) (retries cdnSubdomainIndex : Nat),
        entry.outputPath = "photo.jpg" →
        ctx.blacklist.contains entry.filePath = false →
        downloadFile cfg (fun s => decide (s = "photo.jxl")) env now ctx entry
            retries cdnSubdomainIndex = (ctx, TaskResult.alreadyExists, []) := by
  refine ⟨?_, by decide, ?_⟩
  · intro fsExists p
    simp only [fileExistsOrCompressed]
    split_ifs with h1 h2 h3 <;> simp_all
  · intro cfg env now ctx entry retries idx hout hbl
    rw [downloadFile.eq_def, hbl, hout]
    simp only [Bool.false_eq_true, if_false]
    rw [if_pos (by decide)]

/-- Witness for the hypothesis-bearing part of `c7_existence_check`. -/
theorem c7_existence_check_witness :
    downloadFile { baseDomain := "kemono.cr", subdomains := ["n1"] }
        (fun s => decide (s = "photo.jxl")) (fun _ _ => AttemptOutcome.resp 200 true) 0
        (emptyCtx []) { filePath := "/x", fileName := "photo.jpg",
                        outputPath := "photo.jpg", taskId := "dl-1" } 0 0
      = (emptyCtx [], TaskResult.alreadyExists, []) :=
  c7_existence_check.2.2 _ _ 0 (emptyCtx [])
    { filePath := "/x", fileName := "photo.jpg", outputPath := "photo.jpg", taskId := "dl-1" }
    0 0 rfl (by decide)

/-- C3: for every path currently in the blacklist, invoking the download
worker on a task with that remote path marks it skipped immediately,
leaves the context untouched and performs no network I/O: no proxy
selection and no HTTP request. -/
theorem c3_blacklist_gating (cfg : DomainConfig) (fsExists : String → Bool)
    (env : Nat → Nat → AttemptOutcome) (now : Int) (ctx : Ctx)
    (entry : DownloadQueueEntry) (retries cdnSubdomainIndex : Nat)
    (hmem : ctx.blacklist.contains entry.filePath = true) :
    downloadFile cfg fsExists env now ctx entry retries cdnSubdomainIndex
      = (ctx, TaskResult.skippedBlacklisted, []) := by
  rw [downloadFile.eq_def, hmem]
  simp

/-- Witness for `c3_blacklist_gating`. -/
theorem c3_blacklist_gating_witness :
    downloadFile { baseDomain := "kemono.cr", subdomains := ["n1"] } (fun _ => false)
        (fun _ _ => AttemptOutcome.resp 200 true) 0
        { emptyCtx [] with blacklist := ["/p"] }
        { filePath := "/p", fileName := "f", outputPath := "o", taskId := "dl-1" } 0 0
      = ({ emptyCtx [] with blacklist := ["/p"] }, TaskResult.skippedBlacklisted, []) :=
  c3_blacklist_gating _ _ _ 0 _ _ 0 0 (by decide)

/-- `updateFirst` behaves as a pointwise update when no match can follow
an earlier match. -/
theorem updateFirst_eq_map {α : Type} (p : α → Bool) (f : α → α) :
    ∀ l : List α, l.Pairwise (fun a b => p a = true → p b = false) →
      updateFirst p f l = l.map (fun x => if p x then f x else x) := by
  intro l hl
  induction l with
  | nil => rfl
  | cons x xs ih =>
    rcases List.pairwise_cons.mp hl with ⟨hx, hxs⟩
    by_cases hpx : p x = true
    · have : xs.map (fun y => if p y then f y else y) = xs.map id := by
        apply List.map_congr_left
        intro a ha
        simp [hx a ha hpx]
      simp [updateFirst, hpx, this]
    · simp only [updateFirst, hpx, Bool.false_eq_true, if_false, List.map_cons, ih hxs]

/-- C5 counterexample: a non-axios error (e.g. a local filesystem error
thrown inside the download attempt) is not in the proxy-attributable
classes the claim enumerates, yet it penalizes the proxy: the cooldown
of the reported proxy is set to `now + 30s` and its consecutive-failure
count is incremented. -/
theorem c5_nonaxios_penalizes :
    shouldCooldownProxy (some ReqError.nonAxios) = true ∧
    specProxyAttributable ReqError.nonAxios = false ∧
    recordProxyOutcome (some (mkProxyManager 1)) (some "proxy-0")
        (some ReqError.nonAxios) 100
      = some { entries := [{ id := "proxy-0", cooldownUntil := 30100,
                             consecutiveFailures := 1 }],
               currentIndex := 0, cooldownMs := 30000 } := by
  decide

/-- C5 (amended): reporting an outcome penalizes the proxy — incrementing
its consecutive-failure count and setting cooldown-until to now plus the
30-second window — exactly when the error is proxy-attributable
(connection refused/reset/timeout, unreachable host/network, or HTTP 407)
OR is not an axios error at all (non-HTTP errors are conservatively
treated as proxy-attributable); an HTTP 500 from the origin never
penalizes the proxy; on success the consecutive-failure count is reset to
zero and the cooldown cleared. -/
theorem c5_outcome_policy :
    (∀ e : ReqError, shouldCooldownProxy (some e) = true ↔
        (specProxyAttributable e = true ∨ e = ReqError.nonAxios)) ∧
    (∀ (m : ProxyManager) (sel : String) (code : Option String) (now : Int),
        recordProxyOutcome (some m) (some sel) (some (ReqError.axios code (some 500))) now
          = some m) ∧
    (∀ (m : ProxyManager) (sel : String) (now : Int),
        recordProxyOutcome (some m) (some sel) none now = some (reportSuccess m sel)) ∧
    (∀ (m : ProxyManager) (sel : String) (e : ReqError) (now : Int),
        shouldCooldownProxy (some e) = true →
        recordProxyOutcome (some m) (some sel) (some e) now
          = some (reportFailure m sel now)) ∧
    (∀ (m : ProxyManager) (sel : String) (now : Int),
        (m.entries.map (·.id)).Nodup →
        (reportFailure m sel now).entries = m.entries.map (fun x =>
            if x.id = sel then
              { x with consecutiveFailures := x.consecutiveFailures + 1,
                       cooldownUntil := now + m.cooldownMs }
            else x) ∧
        (reportSuccess m sel).entries = m.entries.map (fun x =>
            if x.id = sel then { x with consecutiveFailures := 0, cooldownUntil := 0 }
            else x)) := by
  refine ⟨?_, ?_, ?_, ?_, ?_⟩
  · intro e
    cases e with
    | nonAxios => simp [shouldCooldownProxy, specProxyAttributable]
    | axios code respStatus =>
      cases respStatus with
      | none =>
        cases code <;>
          simp [shouldCooldownProxy, specProxyAttributable]
      | some s =>
        cases code <;>
          simp [shouldCooldownProxy, specProxyAttributable]
  · intro m sel code now
    simp [recordProxyOutcome, shouldCooldownProxy]
  · intro m sel now
    simp [recordProxyOutcome]
  · intro m sel e now h
    simp [recordProxyOutcome, h]
  · intro m sel now hnodup
    have hpw : m.entries.Pairwise
        (fun a b => decide (a.id = sel) = true → decide (b.id = sel) = false) := by
      have := (List.pairwise_map.mp (by simpa [List.Nodup] using hnodup))
      refine this.imp ?_
      intro a b hab
      simp only [decide_eq_true_eq, decide_eq_false_iff_not]
      exact fun h1 h2 => hab (h1.trans h2.symm)
    constructor
    · rw [reportFailure, updateFirst_eq_map _ _ _ hpw]
      apply List.map_congr_left
      intro a _
      by_cases h : a.id = sel <;> simp [h]
    · rw [reportSuccess, updateFirst_eq_map _ _ _ hpw]
      apply List.map_congr_left
      intro a _
      by_cases h : a.id = sel <;> simp [h]

/-- Witness for `c5_outcome_policy`. -/
theorem c5_outcome_policy_witness :
    shouldCooldownProxy (some (ReqError.axios (some "ECONNREFUSED") none)) = true ∧
    recordProxyOutcome (some (mkProxyManager 2)) (some "proxy-1") none 7
      = some (reportSuccess (mkProxyManager 2) "proxy-1") ∧
    (reportFailure (mkProxyManager 2) "proxy-1" 7).entries
      = (mkProxyManager 2).entries.map (fun x =>
          if x.id = "proxy-1" then
            { x with consecutiveFailures := x.consecutiveFailures + 1,
                     cooldownUntil := 7 + (mkProxyManager 2).cooldownMs }
          else x) := by
  refine ⟨?_, c5_outcome_policy.2.2.1 (mkProxyManager 2) "proxy-1" 7, ?_⟩
  · have := (c5_outcome_policy.1 (ReqError.axios (some "ECONNREFUSED") none)).mpr
      (Or.inl (by decide))
    exact this
  · exact (c5_outcome_policy.2.2.2.2 (mkProxyManager 2) "proxy-1" 7 (by decide)).1

/-- C2: a download task whose HTTP response has status 500 immediately
adds the remote path to the blacklist (exactly once) and makes zero
retry attempts: the attempt terminates with a single HTTP request — no
CDN-subdomain cycling, no retry-count increment — whether the 500 arrives
as a delivered response or as a caught axios error, and the retry
orchestrator never resubmits the task. -/
theorem c2_http500_terminal :
    (∀ (cfg : DomainConfig) (fsExists : String → Bool)
        (env : Nat → Nat → AttemptOutcome) (now : Int) (ctx : Ctx)
        (entry : DownloadQueueEntry) (retries cdnSubdomainIndex : Nat) (streamOk : Bool),
        ctx.blacklist.contains entry.filePath = false →
        fileExistsOrCompressed fsExists entry.outputPath = false →
        env retries cdnSubdomainIndex = AttemptOutcome.resp 500 streamOk →
        downloadFile cfg fsExists env now ctx entry retries cdnSubdomainIndex
          = (addToBlacklist now ctx entry.filePath entry.fileName, TaskResult.blacklisted500,
             [Ev.proxySelect (downloadUrl cfg entry.filePath entry.fileName cdnSubdomainIndex),
              Ev.httpRequest (downloadUrl cfg entry.filePath entry.fileName cdnSubdomainIndex)])) ∧
    (∀ (cfg : DomainConfig) (fsExists : String → Bool)
        (env : Nat → Nat → AttemptOutcome) (now : Int) (ctx : Ctx)
        (entry : DownloadQueueEntry) (retries cdnSubdomainIndex : Nat)
        (code : Option String) (isAbort : Bool),
        ctx.blacklist.contains entry.filePath = false →
        fileExistsOrCompressed fsExists entry.outputPath = false →
        env retries cdnSubdomainIndex = AttemptOutcome.axiosErr code isAbort (some 500) →
        isConnError code isAbort = false →
        downloadFile cfg fsExists env now ctx entry retries cdnSubdomainIndex
          = (addToBlacklist now ctx entry.filePath entry.fileName, TaskResult.blacklisted500,
             [Ev.proxySelect (downloadUrl cfg entry.filePath entry.fileName cdnSubdomainIndex),
              Ev.httpRequest (downloadUrl cfg entry.filePath entry.fileName cdnSubdomainIndex)])) ∧
    (∀ (now : Int) (ctx : Ctx) (filePath fileName : String),
        ctx.blacklist.contains filePath = false →
        (addToBlacklist now ctx filePath fileName).blacklist.count filePath = 1) ∧
    (∀ (cfg : DomainConfig) (fsExists : String → Bool)
        (env : DownloadQueueEntry → Nat → Nat → AttemptOutcome) (now : Int) (ctx : Ctx)
        (entry : DownloadQueueEntry) (streamOk : Bool),
        ctx.blacklist.contains entry.filePath = false →
        fileExistsOrCompressed fsExists entry.outputPath = false →
        env entry 0 0 = AttemptOutcome.resp 500 streamOk →
        downloadAllWithRetries cfg fsExists env now ctx [entry]
          = (addToBlacklist now ctx entry.filePath entry.fileName, 1, [],
             [{ waitedMs := none, ctxBefore := ctx, queue := [entry] }])) := by
  have resp500 : ∀ (cfg : DomainConfig) (fsExists : String → Bool)
      (env : Nat → Nat → AttemptOutcome) (now : Int) (ctx : Ctx)
      (entry : DownloadQueueEntry) (retries cdnSubdomainIndex : Nat) (streamOk : Bool),
      ctx.blacklist.contains entry.filePath = false →
      fileExistsOrCompressed fsExists entry.outputPath = false →
      env retries cdnSubdomainIndex = AttemptOutcome.resp 500 streamOk →
      downloadFile cfg fsExists env now ctx entry retries cdnSubdomainIndex
        = (addToBlacklist now ctx entry.filePath entry.fileName, TaskResult.blacklisted500,
           [Ev.proxySelect (downloadUrl cfg entry.filePath entry.fileName cdnSubdomainIndex),
            Ev.httpRequest (downloadUrl cfg entry.filePath entry.fileName cdnSubdomainIndex)]) := by
    intro cfg fsExists env now ctx entry retries idx streamOk hbl hex henv
    rw [downloadFile.eq_def, hbl, hex, henv]
    simp
  refine ⟨resp500, ?_, ?_, ?_⟩
  · intro cfg fsExists env now ctx entry retries idx code isAbort hbl hex henv hconn
    rw [downloadFile.eq_def, hbl, hex, henv]
    simp [hconn]
  · intro now ctx filePath fileName hbl
    have hnotmem : filePath ∉ ctx.blacklist := by simpa using hbl
    simp [addToBlacklist, saveBlacklist, hnotmem,
      List.count_append, List.count_eq_zero.mpr hnotmem]
  · intro cfg fsExists env now ctx entry streamOk hbl hex henv
    have h1 := resp500 cfg fsExists (env entry) now ctx entry 0 0 streamOk hbl hex henv
    have hfiles : downloadFiles cfg fsExists env now ctx [entry] 0
        = (addToBlacklist now ctx entry.filePath entry.fileName, 1, [],
           [Ev.proxySelect (downloadUrl cfg entry.filePath entry.fileName 0),
            Ev.httpRequest (downloadUrl cfg entry.filePath entry.fileName 0)]) := by
      rw [downloadFiles, h1]
      simp [downloadFiles]
    rw [downloadAllWithRetries, downloadPassLoop.eq_def]
    simp only [List.length_cons, List.length_nil, Nat.zero_add, MAX_RETRY_PASSES]
    rw [dif_pos (by omega)]
    simp only [Nat.zero_add, gt_iff_lt, Nat.lt_irrefl, if_false, hfiles]
    rw [downloadPassLoop.eq_def]
    simp

/-- Witness for `c2_http500_terminal`. -/
theorem c2_http500_terminal_witness :
    downloadAllWithRetries { baseDomain := "kemono.cr", subdomains := ["n1", "n2"] }
        (fun _ => false) (fun _ _ _ => AttemptOutcome.resp 500 true) 0 (emptyCtx [])
        [{ filePath := "/a/b.bin", fileName := "b.bin", outputPath := "out/b.bin",
           taskId := "dl-1" }]
      = (addToBlacklist 0 (emptyCtx []) "/a/b.bin" "b.bin", 1, [],
         [{ waitedMs := none, ctxBefore := emptyCtx [],
            queue := [{ filePath := "/a/b.bin", fileName := "b.bin",
                        outputPath := "out/b.bin", taskId := "dl-1" }] }]) :=
  c2_http500_terminal.2.2.2 _ _ _ 0 (emptyCtx [])
    { filePath := "/a/b.bin", fileName := "b.bin", outputPath := "out/b.bin",
      taskId := "dl-1" } true (by decide) (by decide) rfl

/-- Prefix the event trace of a worker invocation result. -/
def prependEvs (evs : List Ev) (r : Ctx × TaskResult × List Ev) : Ctx × TaskResult × List Ev :=
  (r.1, r.2.1, evs ++ r.2.2)

/-- C1: the URL construction tries the resolved CDN subdomains in order
with the base domain as the final fallback (at index equal to the
subdomain count), and on a connection-level error
(reset/aborted/timed-out/canceled): if CDN subdomains remain untried for
this attempt the task is retried immediately against the next subdomain
at the same retry count; otherwise it waits 10 seconds (10000 ms) and
retries from subdomain 0 with the retry count incremented; once the
per-task ceiling of 3 retries is exhausted the task surfaces as failed
for this pass. -/
theorem c1_cdn_failover :
    (∀ cfg : DomainConfig, downloadHost cfg cfg.subdomains.length = cfg.baseDomain) ∧
    (∀ (cfg : DomainConfig) (i : Nat) (h : i < cfg.subdomains.length),
        downloadHost cfg i = cfg.subdomains[i] ++ "." ++ cfg.baseDomain) ∧
    (∀ (cfg : DomainConfig) (fsExists : String → Bool) (env : Nat → Nat → AttemptOutcome)
        (now : Int) (ctx : Ctx) (entry : DownloadQueueEntry)
        (retries cdnSubdomainIndex : Nat) (code : Option String) (isAbort : Bool)
        (status : Option Nat),
        ctx.blacklist.contains entry.filePath = false →
        fileExistsOrCompressed fsExists entry.outputPath = false →
        env retries cdnSubdomainIndex = AttemptOutcome.axiosErr code isAbort status →
        isConnError code isAbort = true →
        retries < MAX_DOWNLOAD_RETRIES →
        cdnSubdomainIndex < cfg.subdomains.length - 1 →
        downloadFile cfg fsExists env now ctx entry retries cdnSubdomainIndex
          = prependEvs
              [Ev.proxySelect (downloadUrl cfg entry.filePath entry.fileName cdnSubdomainIndex),
               Ev.httpRequest (downloadUrl cfg entry.filePath entry.fileName cdnSubdomainIndex)]
              (downloadFile cfg fsExists env now
                (recordFailure now ctx entry.filePath entry.fileName) entry
                retries (cdnSubdomainIndex + 1))) ∧
    (∀ (cfg : DomainConfig) (fsExists : String → Bool) (env : Nat → Nat → AttemptOutcome)
        (now : Int) (ctx : Ctx) (entry : DownloadQueueEntry)
        (retries cdnSubdomainIndex : Nat) (code : Option String) (isAbort : Bool)
        (status : Option Nat),
        ctx.blacklist.contains entry.filePath = false →
        fileExistsOrCompressed fsExists entry.outputPath = false →
        env retries cdnSubdomainIndex = AttemptOutcome.axiosErr code isAbort status →
        isConnError code isAbort = true →
        retries < MAX_DOWNLOAD_RETRIES →
        ¬ cdnSubdomainIndex < cfg.subdomains.length - 1 →
        downloadFile cfg fsExists env now ctx entry retries cdnSubdomainIndex
          = prependEvs
              [Ev.proxySelect (downloadUrl cfg entry.filePath entry.fileName cdnSubdomainIndex),
               Ev.httpRequest (downloadUrl cfg entry.filePath entry.fileName cdnSubdomainIndex),
               Ev.waitMs DOWNLOAD_RETRY_WAIT_SECONDS]
              (downloadFile cfg fsExists env now
                (recordFailure now ctx entry.filePath entry.fileName) entry
                (retries + 1) 0)) ∧
    (∀ (cfg : DomainConfig) (fsExists : String → Bool) (env : Nat → Nat → AttemptOutcome)
        (now : Int) (ctx : Ctx) (entry : DownloadQueueEntry)
        (retries cdnSubdomainIndex : Nat) (code : Option String) (isAbort : Bool)
        (status : Option Nat),
        ctx.blacklist.contains entry.filePath = false →
        fileExistsOrCompressed fsExists entry.outputPath = false →
        env retries cdnSubdomainIndex = AttemptOutcome.axiosErr code isAbort status →
        isConnError code isAbort = true →
        ¬ retries < MAX_DOWNLOAD_RETRIES →
        downloadFile cfg fsExists env now ctx entry retries cdnSubdomainIndex
          = (recordFailure now ctx entry.filePath entry.fileName, TaskResult.failedPass,
             [Ev.proxySelect (downloadUrl cfg entry.filePath entry.fileName cdnSubdomainIndex),
              Ev.httpRequest (downloadUrl cfg entry.filePath entry.fileName cdnSubdomainIndex)])) := by
  refine ⟨?_, ?_, ?_, ?_, ?_⟩
  · intro cfg
    simp [downloadHost]
  · intro cfg i h
    simp [downloadHost, h]
  · intro cfg fsExists env now ctx entry retries idx code isAbort status hbl hex henv hconn hr hi
    rw [downloadFile.eq_def, hbl, hex, henv]
    simp [hconn, hr, hi, prependEvs]
  · intro cfg fsExists env now ctx entry retries idx code isAbort status hbl hex henv hconn hr hi
    rw [downloadFile.eq_def, hbl, hex, henv]
    simp [hconn, hr, hi, prependEvs]
  · intro cfg fsExists env now ctx entry retries idx code isAbort status hbl hex henv hconn hr
    rw [downloadFile.eq_def, hbl, hex, henv]
    simp [hconn, hr]

/-- Witness for `c1_cdn_failover`: a reset connection on the first of two
subdomains retries immediately on the second at the same retry count; on
the last subdomain it waits 10s and restarts from subdomain 0 with the
count incremented. -/
theorem c1_cdn_failover_witness :
    downloadFile { baseDomain := "kemono.cr", subdomains := ["n1", "n2"] } (fun _ => false)
        (fun _ _ => AttemptOutcome.axiosErr (some "ECONNRESET") false none) 0 (emptyCtx [])
        { filePath := "/p", fileName := "f", outputPath := "o", taskId := "dl-1" } 0 0
      = prependEvs
          [Ev.proxySelect "https://n1.kemono.cr/data/p?f=f",
           Ev.httpRequest "https://n1.kemono.cr/data/p?f=f"]
          (downloadFile { baseDomain := "kemono.cr", subdomains := ["n1", "n2"] }
            (fun _ => false)
            (fun _ _ => AttemptOutcome.axiosErr (some "ECONNRESET") false none) 0
            (recordFailure 0 (emptyCtx []) "/p" "f")
            { filePath := "/p", fileName := "f", outputPath := "o", taskId := "dl-1" } 0 1) :=
  c1_cdn_failover.2.2.1 _ _ _ 0 (emptyCtx [])
    { filePath := "/p", fileName := "f", outputPath := "o", taskId := "dl-1" }
    0 0 (some "ECONNRESET") false none (by decide) (by decide) rfl (by decide)
    (by decide) (by decide)

/-- Folding a page of entirely fresh identifiers appends them all. -/
theorem addNewPosts_append_of_disjoint {α : Type} [DecidableEq α] :
    ∀ (l seen posts : List α), (∀ a ∈ l, a ∉ seen) → l.Nodup →
      addNewPosts seen posts l = (seen ++ l, posts ++ l, l.length) := by
  intro l
  induction l with
  | nil => intro seen posts _ _; simp [addNewPosts]
  | cons x xs ih =>
    intro seen posts h hnd
    have hx : x ∉ seen := h x (List.mem_cons_self x xs)
    have hcont : seen.contains x = false := by simpa using hx
    rw [addNewPosts, hcont]
    simp only [Bool.false_eq_true, if_false]
    rw [ih (seen ++ [x]) (posts ++ [x]) ?_ (List.Nodup.of_cons hnd)]
    · simp
    · intro a ha
      simp only [List.mem_append, List.mem_singleton]
      rintro (hseen | rfl)
      · exact h a (List.mem_cons_of_mem x ha) hseen
      · exact (List.nodup_cons.mp hnd).1 ha

/-- Folding a page of already-seen identifiers adds nothing. -/
theorem addNewPosts_of_subset {α : Type} [DecidableEq α] :
    ∀ (l seen posts : List α), (∀ a ∈ l, a ∈ seen) →
      addNewPosts seen posts l = (seen, posts, 0) := by
  intro l
  induction l with
  | nil => intro seen posts _; simp [addNewPosts]
  | cons x xs ih =>
    intro seen posts h
    have hcont : seen.contains x = true := by
      simpa using h x (List.mem_cons_self x xs)
    rw [addNewPosts, hcont]
    simp only [if_true]
    exact ih seen posts (fun a ha => h a (List.mem_cons_of_mem x ha))

set_option maxHeartbeats 1000000 in
/-- One symbolic step of the paginator: the page at `offset` contains no
unseen identifier, so the loop stops with `noNewPosts`. -/
theorem paginateLoop_step_noNew {α : Type} [DecidableEq α]
    (fetch : Nat → Option (List α)) (m : Int) (offset : Nat)
    (seen posts page : List α)
    (hf : fetch offset = some page) (h0 : ¬ page.length = 0)
    (hn : (addNewPosts seen posts page).2.2 = 0) :
    paginateLoop fetch m offset seen posts
      = ⟨(addNewPosts seen posts page).2.1, StopReason.noNewPosts, [offset]⟩ := by
  rw [paginateLoop.eq_def, hf]
  simp [h0, hn]

set_option maxHeartbeats 1000000 in
/-- One symbolic step of the paginator: no stop condition fires at
`offset`, so the loop recurses to `offset + PAGE_SIZE`. -/
theorem paginateLoop_step_continue {α : Type} [DecidableEq α]
    (fetch : Nat → Option (List α)) (m : Int) (offset : Nat)
    (seen posts page : List α)
    (hf : fetch offset = some page) (h0 : ¬ page.length = 0)
    (hn : ¬ (addNewPosts seen posts page).2.2 = 0)
    (hdup : ¬ (((page.length - (addNewPosts seen posts page).2.2 : ℚ) / page.length > 9 / 10)
        ∧ (addNewPosts seen posts page).2.1.length > 100))
    (hshort : ¬ page.length < PAGE_SIZE)
    (hmax : ¬ ((addNewPosts seen posts page).2.1.length : Int) ≥ maxPostsLimit m)
    (hceil : ¬ offset ≥ 10000) :
    paginateLoop fetch m offset seen posts
      = ⟨(paginateLoop fetch m (offset + PAGE_SIZE)
            (addNewPosts seen posts page).1 (addNewPosts seen posts page).2.1).posts,
         (paginateLoop fetch m (offset + PAGE_SIZE)
            (addNewPosts seen posts page).1 (addNewPosts seen posts page).2.1).reason,
         offset :: (paginateLoop fetch m (offset + PAGE_SIZE)
            (addNewPosts seen posts page).1 (addNewPosts seen posts page).2.1).offsets⟩ := by
  rw [paginateLoop.eq_def, hf]
  simp [h0, hn, hdup, hshort, hmax, hceil]

/-- The run of the paginator on the "page 2 repeats page 1" scenario:
stops after fetching offsets 0 and 50, with the 50 posts of page 1 and
stop reason `noNewPosts`. -/
theorem duplicatePageRun :
    paginate (fun o => if o = 0 then some (List.range 50)
        else if o = 50 then some (List.range 50) else some []) 0
      = ⟨List.range 50, StopReason.noNewPosts, [0, 50]⟩ := by
  have hadd0 : addNewPosts ([] : List Nat) [] (List.range 50)
      = ([] ++ List.range 50, [] ++ List.range 50, (List.range 50).length) :=
    addNewPosts_append_of_disjoint (List.range 50) [] [] (by simp) (List.nodup_range 50)
  have hadd1 : addNewPosts (List.range 50) (List.range 50) (List.range 50)
      = (List.range 50, List.range 50, 0) :=
    addNewPosts_of_subset (List.range 50) (List.range 50) (List.range 50) (fun a ha => ha)
  rw [paginate, paginateLoop_step_continue _ 0 0 [] [] (List.range 50) rfl
      (by simp) (by rw [hadd0]; simp) (by rw [hadd0]; norm_num)
      (by simp [PAGE_SIZE]) (by rw [hadd0]; simp [maxPostsLimit]) (by norm_num)]
  rw [hadd0]
  simp only [List.nil_append, PAGE_SIZE, Nat.zero_add]
  rw [paginateLoop_step_noNew _ 0 50 (List.range 50) (List.range 50) (List.range 50) rfl
      (by simp) (by rw [hadd1])]
  rw [hadd1]

/-- C9 counterexample: with page 1 = 50 posts and page 2 the same 50
posts, the paginator stops after page 2 (offsets 0 and 50 fetched, 50
unique posts) but via the zero-new-posts termination, not the
duplicate-ratio short-circuit. -/
theorem c9_duplicate_page_counterexample :
    paginate (fun o => if o = 0 then some (List.range 50)
        else if o = 50 then some (List.range 50) else some []) 0
      = ⟨List.range 50, StopReason.noNewPosts, [0, 50]⟩ ∧
    StopReason.noNewPosts ≠ StopReason.dupRatioHigh :=
  ⟨duplicatePageRun, by decide⟩

/-- C9 (amended): with page 1 = 50 posts and page 2 returning the same
50 posts (100% ID overlap), the paginator stops after page 2 with
exactly 50 unique posts collected, via the zero-new-posts termination
(the page contains no not-yet-seen identifiers); the duplicate-ratio
short-circuit does not fire because it only applies once more than 100
posts have been collected, and the zero-new-posts check precedes it. -/
theorem c9_duplicate_page_stops :
    paginate (fun o => if o = 0 then some (List.range 50)
        else if o = 50 then some (List.range 50) else some []) 0
      = ⟨List.range 50, StopReason.noNewPosts, [0, 50]⟩ ∧
    (List.range 50).length = 50 :=
  ⟨duplicatePageRun, by simp⟩

/-- Folding a page grows the post list by exactly the number of new
identifiers, which is at most the page length. -/
theorem addNewPosts_length {α : Type} [DecidableEq α] :
    ∀ (l seen posts : List α),
      (addNewPosts seen posts l).2.1.length = posts.length + (addNewPosts seen posts l).2.2
      ∧ (addNewPosts seen posts l).2.2 ≤ l.length := by
  intro l
  induction l with
  | nil => intro seen posts; simp [addNewPosts]
  | cons x xs ih =>
    intro seen posts
    rw [addNewPosts]
    by_cases hc : seen.contains x = true
    · simp only [hc, if_true]
      refine ⟨(ih seen posts).1, le_trans (ih seen posts).2 (by simp)⟩
    · simp only [hc, Bool.false_eq_true, if_false]
      have h := ih (seen ++ [x]) (posts ++ [x])
      constructor
      · simp only [h.1, List.length_append, List.length_singleton]
        omega
      · simpa using Nat.add_le_add h.2 (le_refl 1)

/-- Bound on a capped pagination run, by induction on the remaining
offset budget. -/
theorem paginateLoop_cap_bound {α : Type} [DecidableEq α]
    (fetch : Nat → Option (List α)) (m : Int) (hm : m ≤ 0)
    (hpage : ∀ o l, fetch o = some l → l.length ≤ PAGE_SIZE) :
    ∀ (k offset : Nat) (seen posts : List α), 10050 - offset ≤ k →
      posts.length < 5000 →
      (paginateLoop fetch m offset seen posts).posts.length < 5000 + PAGE_SIZE := by
  have hps : PAGE_SIZE = 50 := rfl
  have hlim : maxPostsLimit m = 5000 := by rw [maxPostsLimit, if_neg (by omega)]
  intro k
  induction k with
  | zero =>
    intro offset seen posts hk hlt
    rw [paginateLoop.eq_def]
    cases hf : fetch offset with
    | none => simp only [PageResult.posts]; omega
    | some page =>
      have hp := hpage offset page hf
      have hlen := (addNewPosts_length page seen posts).1
      have hcnt := (addNewPosts_length page seen posts).2
      by_cases h0 : page.length = 0
      · simp only [h0, if_pos, if_true, PageResult.posts]; omega
      · simp only [if_neg h0]
        split_ifs with h1 h2 h3 h4 h5 <;>
          simp only [PageResult.posts] <;> omega
  | succ k ih =>
    intro offset seen posts hk hlt
    rw [paginateLoop.eq_def]
    cases hf : fetch offset with
    | none => simp only [PageResult.posts]; omega
    | some page =>
      have hp := hpage offset page hf
      have hlen := (addNewPosts_length page seen posts).1
      have hcnt := (addNewPosts_length page seen posts).2
      by_cases h0 : page.length = 0
      · simp only [h0, if_pos, if_true, PageResult.posts]; omega
      · simp only [if_neg h0]
        split_ifs with h1 h2 h3 h4 h5
        · simp only [PageResult.posts]; omega
        · simp only [PageResult.posts]; omega
        · simp only [PageResult.posts]; omega
        · simp only [PageResult.posts]; omega
        · simp only [PageResult.posts]; omega
        · simp only [PageResult.posts]
          refine ih (offset + PAGE_SIZE) (addNewPosts seen posts page).1
            (addNewPosts seen posts page).2.1 (by omega) ?_
          rw [hlim] at h4
          omega

/-- C10: when the configured maximum post count is zero or negative,
pagination is not unlimited: the hard default cap 5000 is substituted,
and the paginator stops fetching further pages as soon as at least 5000
posts have been collected (a state holding at least 5000 posts fetches at
most the one page at its current offset; with pages of at most
`PAGE_SIZE` posts, a full run collects fewer than `5000 + PAGE_SIZE`
posts). -/
theorem c10_default_cap :
    (∀ m : Int, m ≤ 0 → maxPostsLimit m = 5000) ∧
    (∀ {α : Type} [DecidableEq α] (fetch : Nat → Option (List α)) (m : Int)
        (offset : Nat) (seen posts : List α), m ≤ 0 → 5000 ≤ posts.length →
        (paginateLoop fetch m offset seen posts).offsets = [offset]) ∧
    (∀ {α : Type} [DecidableEq α] (fetch : Nat → Option (List α)) (m : Int)
        (offset : Nat) (seen posts : List α), m ≤ 0 →
        (∀ o l, fetch o = some l → l.length ≤ PAGE_SIZE) →
        posts.length < 5000 →
        (paginateLoop fetch m offset seen posts).posts.length < 5000 + PAGE_SIZE) := by
  have hlimit : ∀ m : Int, m ≤ 0 → maxPostsLimit m = 5000 := by
    intro m hm
    rw [maxPostsLimit, if_neg (by omega)]
  refine ⟨hlimit, ?_, ?_⟩
  · intro α _ fetch m offset seen posts hm hfull
    rw [paginateLoop.eq_def]
    cases hf : fetch offset with
    | none => rfl
    | some page =>
      by_cases h0 : page.length = 0
      · simp [h0]
      · have hlen := (addNewPosts_length page seen posts).1
        simp only [if_neg h0]
        split_ifs with h1 h2 h3 h4 h5 <;> try rfl
        exact absurd (by rw [hlimit m hm]; omega) h4
  · intro α _ fetch m offset seen posts hm hpage hlt
    exact paginateLoop_cap_bound fetch m hm hpage 10050 offset seen posts (by omega) hlt

/-- Witness for `c10_default_cap`. -/
theorem c10_default_cap_witness :
    maxPostsLimit (-3) = 5000 ∧
    (paginateLoop (fun _ => some ([] : List Nat)) 0 0 [] (List.range 5000)).offsets = [0] ∧
    (paginateLoop (fun _ => some ([] : List Nat)) 0 0 [] []).posts.length
      < 5000 + PAGE_SIZE :=
  ⟨c10_default_cap.1 (-3) (by norm_num),
   c10_default_cap.2.1 (fun _ => some ([] : List Nat)) 0 0 [] (List.range 5000)
     (le_refl 0) (by simp),
   c10_default_cap.2.2 (fun _ => some ([] : List Nat)) 0 0 [] [] (le_refl 0)
     (fun o l h => by cases h; simp [PAGE_SIZE]) (by simp)⟩

/-- An index returned by the candidate scan is in range. -/
theorem findAvailableFrom_lt (entries : List ProxyEntry) (now : Int) (start : Nat) :
    ∀ (fuel i index : Nat),
      findAvailableFrom entries now start i fuel = some index → index < entries.length := by
  intro fuel
  induction fuel with
  | zero => intro i index h; rw [findAvailableFrom] at h; exact Option.noConfusion h
  | succ f ih =>
    intro i index h
    rw [findAvailableFrom] at h
    cases hget : entries[(start + i) % entries.length]? with
    | none => rw [hget] at h; exact Option.noConfusion h
    | some c =>
      rw [hget] at h
      simp only at h
      by_cases hcd : c.cooldownUntil > now
      · rw [if_pos hcd] at h
        exact ih (i + 1) index h
      · rw [if_neg hcd] at h
        cases h
        exact (List.getElem?_eq_some.mp hget).1

/-- With every entry available, the candidate scan immediately returns
the index it starts at. -/
theorem findAvailableFrom_all_avail (entries : List ProxyEntry) (now : Int)
    (start i fuel : Nat) (hf : fuel ≠ 0) (hlen : entries.length ≠ 0)
    (hav : ∀ e ∈ entries, e.cooldownUntil ≤ now) :
    findAvailableFrom entries now start i fuel = some ((start + i) % entries.length) := by
  cases fuel with
  | zero => exact absurd rfl hf
  | succ f =>
    rw [findAvailableFrom]
    have hidx : (start + i) % entries.length < entries.length :=
      Nat.mod_lt _ (Nat.pos_of_ne_zero hlen)
    have hmem : entries[(start + i) % entries.length] ∈ entries := List.getElem_mem hidx
    simp only [List.getElem?_eq_getElem hidx]
    rw [if_neg (by simpa using hav _ hmem)]

/-- With every entry available, one `getNextProxy` call selects the entry
at the cursor (mod the pool size) and advances the cursor one past it. -/
theorem getNextProxy_all_avail (pm : ProxyManager) (now : Int)
    (hlen : pm.entries.length ≠ 0) (hav : ∀ e ∈ pm.entries, e.cooldownUntil ≤ now) :
    getNextProxy pm now
      = ((pm.entries[pm.currentIndex % pm.entries.length]?).map (·.id),
         { pm with currentIndex := (pm.currentIndex + 1) % pm.entries.length }) := by
  have hidx : pm.currentIndex % pm.entries.length < pm.entries.length :=
    Nat.mod_lt _ (Nat.pos_of_ne_zero hlen)
  rw [getNextProxy, if_neg hlen,
    findAvailableFrom_all_avail pm.entries now pm.currentIndex 0 pm.entries.length
      hlen hlen hav]
  simp only [Nat.add_zero, List.getElem?_eq_getElem hidx, Option.map_some,
    Nat.mod_add_mod]
  rfl

/-- With every entry available, `n` consecutive selections walk the pool
cyclically from the cursor. -/
theorem selectN_all_avail (entries : List ProxyEntry) (cd : Int) (now : Int)
    (hlen : entries.length ≠ 0) (hav : ∀ e ∈ entries, e.cooldownUntil ≤ now) :
    ∀ (n cur : Nat),
      (selectN ⟨entries, cur, cd⟩ now n).1
        = (List.range n).map
            (fun k => (entries[(cur + k) % entries.length]?).map (·.id)) := by
  intro n
  induction n with
  | zero => intro cur; simp [selectN]
  | succ n ih =>
    intro cur
    rw [selectN, getNextProxy_all_avail ⟨entries, cur, cd⟩ now hlen hav]
    simp only
    rw [ih ((cur + 1) % entries.length)]
    rw [List.range_succ_eq_map, List.map_cons, List.map_map]
    refine congrArg₂ List.cons ?_ ?_
    · have hidx : cur % entries.length < entries.length :=
        Nat.mod_lt _ (Nat.pos_of_ne_zero hlen)
      simp [List.getElem?_eq_getElem hidx]
    · apply List.map_congr_left
      intro a _
      simp only [Function.comp_apply]
      rw [Nat.mod_add_mod, show cur + 1 + a = cur + (a + 1) by omega]

/-- C6: with `N` proxies configured, none cooling down and no failures
reported in between, `N` consecutive selections return each proxy
exactly once, in the cyclic order of the pool rotated to start at the
internal cursor; a single call selects the candidate index found by the
scan (which skips cooling entries) and advances the cursor just past the
selected index (not past skipped ones); selection returns none when the
pool is empty or every entry is cooling down. -/
theorem c6_round_robin :
    (∀ (pm : ProxyManager) (now : Int), pm.entries = [] →
        (getNextProxy pm now).1 = none) ∧
    (∀ (pm : ProxyManager) (now : Int), (∀ e ∈ pm.entries, e.cooldownUntil > now) →
        (getNextProxy pm now).1 = none) ∧
    (∀ (pm : ProxyManager) (now : Int) (index : Nat),
        findAvailableFrom pm.entries now pm.currentIndex 0 pm.entries.length = some index →
        (getNextProxy pm now).1 = (pm.entries[index]?).map (·.id) ∧
        (getNextProxy pm now).2.currentIndex = (index + 1) % pm.entries.length) ∧
    (∀ (pm : ProxyManager) (now : Int), pm.entries ≠ [] →
        (∀ e ∈ pm.entries, e.cooldownUntil ≤ now) →
        (selectN pm now pm.entries.length).1
          = ((pm.entries.map (·.id)).rotate pm.currentIndex).map some ∧
        (selectN pm now pm.entries.length).1.Perm
          ((pm.entries.map (·.id)).map some)) := by
  have hnone_fuel : ∀ (entries : List ProxyEntry) (now : Int) (start : Nat),
      (∀ e ∈ entries, e.cooldownUntil > now) →
      ∀ (fuel i : Nat), findAvailableFrom entries now start i fuel = none := by
    intro entries now start hcool fuel
    induction fuel with
    | zero => intro i; rw [findAvailableFrom]
    | succ f ih =>
      intro i
      rw [findAvailableFrom]
      cases hget : entries[(start + i) % entries.length]? with
      | none => rfl
      | some c =>
        have hmem : c ∈ entries := by
          obtain ⟨hlt, heq⟩ := List.getElem?_eq_some.mp hget
          exact heq ▸ List.getElem_mem hlt
        simp only [if_pos (hcool c hmem)]
        exact ih (i + 1)
  refine ⟨?_, ?_, ?_, ?_⟩
  · intro pm now he
    rw [getNextProxy, if_pos (by simp [he])]
  · intro pm now hcool
    by_cases hlen : pm.entries.length = 0
    · rw [getNextProxy, if_pos hlen]
    · rw [getNextProxy, if_neg hlen,
        hnone_fuel pm.entries now pm.currentIndex hcool pm.entries.length 0]
  · intro pm now index hfind
    have hidx : index < pm.entries.length :=
      findAvailableFrom_lt pm.entries now pm.currentIndex pm.entries.length 0 index hfind
    have hlen : ¬ pm.entries.length = 0 := by omega
    rw [getNextProxy, if_neg hlen, hfind]
    simp only [List.getElem?_eq_getElem hidx, Option.map_some]
    exact ⟨rfl, trivial⟩
  · intro pm now hne hav
    have hlen : pm.entries.length ≠ 0 := by simpa using hne
    have hN : 0 < pm.entries.length := Nat.pos_of_ne_zero hlen
    have hsel : (selectN pm now pm.entries.length).1
        = (List.range pm.entries.length).map
            (fun k => (pm.entries[(pm.currentIndex + k) % pm.entries.length]?).map (·.id)) := by
      have h := selectN_all_avail pm.entries pm.cooldownMs now hlen hav
        pm.entries.length pm.currentIndex
      simpa using h
    have hrot : (selectN pm now pm.entries.length).1
        = ((pm.entries.map (·.id)).rotate pm.currentIndex).map some := by
      rw [hsel]
      apply List.ext_getElem
      · simp
      · intro k hk1 hk2
        simp only [List.getElem_map, List.getElem_range]
        have hmod : (pm.currentIndex + k) % pm.entries.length < pm.entries.length :=
          Nat.mod_lt _ hN
        rw [List.getElem?_eq_getElem hmod]
        rw [List.getElem_rotate]
        simp only [Option.map_some, List.getElem_map]
        rw [Nat.add_comm k pm.currentIndex]
        simp
    refine ⟨hrot, ?_⟩
    rw [hrot]
    exact ((pm.entries.map (·.id)).rotate_perm pm.currentIndex).map some

/-- Witness for `c6_round_robin`: three fresh proxies, three selections. -/
theorem c6_round_robin_witness :
    (selectN (mkProxyManager 3) 0 (mkProxyManager 3).entries.length).1
      = (((mkProxyManager 3).entries.map (·.id)).rotate
          (mkProxyManager 3).currentIndex).map some ∧
    (selectN (mkProxyManager 3) 0 (mkProxyManager 3).entries.length).1.Perm
      (((mkProxyManager 3).entries.map (·.id)).map some) :=
  c6_round_robin.2.2.2 (mkProxyManager 3) 0 (by decide) (by decide)

/-! ### Association-list lemmas for the blacklist store -/

theorem mapGet_cons {α : Type} (k' : String) (v : α) (m : List (String × α)) (k : String) :
    mapGet ((k', v) :: m) k = if k' = k then some v else mapGet m k := by
  by_cases h : k' = k <;> simp [mapGet, List.find?, h]

theorem mapGet_none_iff_any {α : Type} :
    ∀ (m : List (String × α)) (k : String),
      mapGet m k = none ↔ m.any (fun p => p.1 = k) = false := by
  intro m k
  induction m with
  | nil => simp [mapGet]
  | cons p rest ih =>
    obtain ⟨k', v⟩ := p
    rw [mapGet_cons]
    by_cases h : k' = k <;> simp [h, ih]

theorem mapSet_of_none {α : Type} (m : List (String × α)) (k : String) (v : α)
    (h : mapGet m k = none) : mapSet m k v = m ++ [(k, v)] := by
  rw [mapSet, if_neg]
  rw [(mapGet_none_iff_any m k).mp h]
  simp

theorem mapGet_append_of_none {α : Type} :
    ∀ (m1 m2 : List (String × α)) (k : String), mapGet m1 k = none →
      mapGet (m1 ++ m2) k = mapGet m2 k := by
  intro m1 m2 k
  induction m1 with
  | nil => intro; rfl
  | cons p rest ih =>
    obtain ⟨k', v⟩ := p
    intro h
    rw [mapGet_cons] at h
    by_cases hk : k' = k
    · rw [if_pos hk] at h; exact Option.noConfusion h
    · rw [if_neg hk] at h
      rw [List.cons_append, mapGet_cons, if_neg hk]
      exact ih h

theorem mapGet_pairs {β : Type} (g : BlacklistEntry → β) :
    ∀ (l : List BlacklistEntry) (e : BlacklistEntry),
      (l.map (·.filePath)).Nodup → e ∈ l →
      mapGet (l.map (fun x => (x.filePath, g x))) e.filePath = some (g e) := by
  intro l
  induction l with
  | nil => intro e _ he; exact absurd he (List.not_mem_nil e)
  | cons x rest ih =>
    intro e hnd he
    have hnd' : (∀ y ∈ rest, ¬ y.filePath = x.filePath)
        ∧ (rest.map (·.filePath)).Nodup := by simpa using hnd
    rw [List.map_cons, mapGet_cons]
    rcases List.mem_cons.mp he with rfl | hrest
    · rw [if_pos rfl]
    · have hne : x.filePath ≠ e.filePath := fun hc => hnd'.1 e hrest hc.symm
      rw [if_neg hne]
      exact ih e hnd'.2 hrest

/-- The expiry test of `loadBlacklist` line 25 (for entries carrying an
`addedAt`). -/
def entryExpired (now : Int) (e : BlacklistEntry) : Bool :=
  now - e.addedAt.getD 0 > BLACKLIST_EXPIRY_MS

theorem mapGet_single_ne {α : Type} (k k' : String) (v : α) (h : ¬ k = k') :
    mapGet [(k, v)] k' = none := by
  rw [mapGet_cons, if_neg h]
  rfl

/-- Specification of the `loadBlacklist` fold on well-formed, fresh
persisted data: non-expired entries are appended to the context in
order, expired ones are counted. -/
theorem loadFold_spec (now : Int) :
    ∀ (data : List BlacklistEntry) (ctx : Ctx) (cnt : Nat),
      (∀ e ∈ data, e.filePath ≠ "" ∧ e.fileName ≠ "" ∧ e.failureCount ≠ 0
        ∧ e.addedAt.isSome) →
      (data.map (·.filePath)).Nodup →
      (∀ e ∈ data, ctx.blacklist.contains e.filePath = false ∧
        mapGet ctx.failureCounts e.filePath = none ∧
        mapGet ctx.fileNames e.filePath = none ∧
        mapGet ctx.addedAtDates e.filePath = none) →
      data.foldl (loadBlacklistStep now) (ctx, cnt)
        = ({ blacklist := ctx.blacklist
                ++ (data.filter (fun e => ! entryExpired now e)).map (·.filePath),
             failureCounts := ctx.failureCounts
                ++ (data.filter (fun e => ! entryExpired now e)).map
                    (fun e => (e.filePath, e.failureCount)),
             fileNames := ctx.fileNames
                ++ (data.filter (fun e => ! entryExpired now e)).map
                    (fun e => (e.filePath, e.fileName)),
             addedAtDates := ctx.addedAtDates
                ++ (data.filter (fun e => ! entryExpired now e)).map
                    (fun e => (e.filePath, e.addedAt.getD 0)),
             blacklistFileData := ctx.blacklistFileData },
           cnt + (data.filter (entryExpired now)).length) := by
  intro data
  induction data with
  | nil => intro ctx cnt _ _ _; simp
  | cons e rest ih =>
    intro ctx cnt hw hnd hfresh
    obtain ⟨hfp, hfn, hfc, hsome⟩ := hw e (List.mem_cons_self e rest)
    obtain ⟨t, ht⟩ := Option.isSome_iff_exists.mp hsome
    obtain ⟨hbl, hcnt, hnm, hdt⟩ := hfresh e (List.mem_cons_self e rest)
    have hndc : (∀ y ∈ rest, ¬ y.filePath = e.filePath)
        ∧ (rest.map (·.filePath)).Nodup := by simpa using hnd
    have hgetd : e.addedAt.getD 0 = t := by rw [ht]; rfl
    rw [List.foldl_cons]
    by_cases hexp : entryExpired now e = true
    · have hexp' : now - t > BLACKLIST_EXPIRY_MS := by
        simpa [entryExpired, hgetd] using hexp
      have hstep : loadBlacklistStep now (ctx, cnt) e = (ctx, cnt + 1) := by
        rw [loadBlacklistStep, loadBlacklistEntry, if_neg hfp, ht]
        simp [hexp']
      rw [hstep, ih ctx (cnt + 1)
        (fun x hx => hw x (List.mem_cons_of_mem e hx))
        hndc.2
        (fun x hx => hfresh x (List.mem_cons_of_mem e hx))]
      rw [List.filter_cons_of_neg (by simp [hexp]),
        List.filter_cons_of_pos hexp]
      simp only [Prod.mk.injEq, List.length_cons]
      exact ⟨by first | rfl | trivial, by omega⟩
    · have hexp' : ¬ now - t > BLACKLIST_EXPIRY_MS := by
        intro hc
        exact hexp (by simp [entryExpired, hgetd, hc])
      have hstep : loadBlacklistStep now (ctx, cnt) e
          = ({ blacklist := ctx.blacklist ++ [e.filePath],
               failureCounts := ctx.failureCounts ++ [(e.filePath, e.failureCount)],
               fileNames := ctx.fileNames ++ [(e.filePath, e.fileName)],
               addedAtDates := ctx.addedAtDates ++ [(e.filePath, t)],
               blacklistFileData := ctx.blacklistFileData }, cnt) := by
        rw [loadBlacklistStep, loadBlacklistEntry, if_neg hfp]
        simp only [ht]
        rw [if_neg hexp']
        simp only [mapSet_of_none _ _ _ hdt]
        rw [setAdd, hbl]
        simp only [Bool.false_eq_true, if_false, if_pos hfc, if_pos hfn,
          mapSet_of_none _ _ _ hcnt, mapSet_of_none _ _ _ hnm]
      rw [hstep]
      set ctx2 : Ctx :=
        { blacklist := ctx.blacklist ++ [e.filePath],
          failureCounts := ctx.failureCounts ++ [(e.filePath, e.failureCount)],
          fileNames := ctx.fileNames ++ [(e.filePath, e.fileName)],
          addedAtDates := ctx.addedAtDates ++ [(e.filePath, t)],
          blacklistFileData := ctx.blacklistFileData } with hctx2
      have hfresh2 : ∀ x ∈ rest, ctx2.blacklist.contains x.filePath = false ∧
          mapGet ctx2.failureCounts x.filePath = none ∧
          mapGet ctx2.fileNames x.filePath = none ∧
          mapGet ctx2.addedAtDates x.filePath = none := by
        intro x hx
        obtain ⟨hbl', hcnt', hnm', hdt'⟩ := hfresh x (List.mem_cons_of_mem e hx)
        have hne : ¬ e.filePath = x.filePath := fun hc => hndc.1 x hx hc.symm
        refine ⟨?_, ?_, ?_, ?_⟩
        · have hmem : x.filePath ∉ ctx.blacklist ++ [e.filePath] := by
            simp only [List.mem_append, List.mem_singleton]
            push_neg
            exact ⟨by simpa using hbl', fun hc => hne hc.symm⟩
          simpa using hmem
        · rw [hctx2]
          exact (mapGet_append_of_none _ _ _ hcnt').trans (mapGet_single_ne _ _ _ hne)
        · rw [hctx2]
          exact (mapGet_append_of_none _ _ _ hnm').trans (mapGet_single_ne _ _ _ hne)
        · rw [hctx2]
          exact (mapGet_append_of_none _ _ _ hdt').trans (mapGet_single_ne _ _ _ hne)
      rw [ih ctx2 cnt (fun x hx => hw x (List.mem_cons_of_mem e hx)) hndc.2 hfresh2]
      rw [List.filter_cons_of_pos (by simp [hexp]),
        List.filter_cons_of_neg (by simp [hexp])]
      simp only [Prod.mk.injEq, List.map_cons, hctx2]
      refine ⟨?_, by first | rfl | trivial⟩
      simp [List.append_assoc, hgetd]

theorem saveBlacklist_blacklist (now : Int) (ctx : Ctx) :
    (saveBlacklist now ctx).blacklist = ctx.blacklist := rfl

theorem saveBlacklist_failureCounts (now : Int) (ctx : Ctx) :
    (saveBlacklist now ctx).failureCounts = ctx.failureCounts := rfl

theorem saveBlacklist_fileNames (now : Int) (ctx : Ctx) :
    (saveBlacklist now ctx).fileNames = ctx.fileNames := rfl

theorem saveBlacklist_addedAtDates (now : Int) (ctx : Ctx) :
    (saveBlacklist now ctx).addedAtDates = ctx.addedAtDates := rfl

/-- C8: loading the blacklist drops every persisted entry whose
`addedAt` timestamp is more than 2 days old, loads every remaining entry
(with its `failureCount`, `fileName` and `addedAt`) into the in-memory
maps, and immediately re-persists the store without the dropped entries
exactly when at least one entry expired (otherwise the persisted file is
untouched). -/
theorem c8_blacklist_load (now : Int) (origFile data : List BlacklistEntry)
    (hnd : (data.map (·.filePath)).Nodup)
    (hw : ∀ e ∈ data, e.filePath ≠ "" ∧ e.fileName ≠ "" ∧ e.failureCount ≠ 0
      ∧ e.addedAt.isSome) :
    (loadBlacklist now data (emptyCtx origFile)).blacklist
      = (data.filter (fun e => ! entryExpired now e)).map (·.filePath) ∧
    (∀ e ∈ data.filter (fun e => ! entryExpired now e),
      mapGet (loadBlacklist now data (emptyCtx origFile)).failureCounts e.filePath
        = some e.failureCount ∧
      mapGet (loadBlacklist now data (emptyCtx origFile)).fileNames e.filePath
        = some e.fileName ∧
      mapGet (loadBlacklist now data (emptyCtx origFile)).addedAtDates e.filePath
        = e.addedAt) ∧
    (loadBlacklist now data (emptyCtx origFile)).blacklistFileData
      = (if data.any (entryExpired now)
         then data.filter (fun e => ! entryExpired now e)
         else origFile) := by
  have hfresh : ∀ e ∈ data, (emptyCtx origFile).blacklist.contains e.filePath = false ∧
      mapGet (emptyCtx origFile).failureCounts e.filePath = none ∧
      mapGet (emptyCtx origFile).fileNames e.filePath = none ∧
      mapGet (emptyCtx origFile).addedAtDates e.filePath = none :=
    fun e _ => ⟨rfl, rfl, rfl, rfl⟩
  have hfold := loadFold_spec now data (emptyCtx origFile) 0 hw hnd hfresh
  have hkeepNodup : ((data.filter (fun e => ! entryExpired now e)).map (·.filePath)).Nodup :=
    hnd.sublist (List.Sublist.map _ (List.filter_sublist data))
  have hL : loadBlacklist now data (emptyCtx origFile)
      = (if 0 < (data.filter (entryExpired now)).length
         then saveBlacklist now
           { blacklist := (data.filter (fun e => ! entryExpired now e)).map (·.filePath),
             failureCounts := (data.filter (fun e => ! entryExpired now e)).map
               (fun e => (e.filePath, e.failureCount)),
             fileNames := (data.filter (fun e => ! entryExpired now e)).map
               (fun e => (e.filePath, e.fileName)),
             addedAtDates := (data.filter (fun e => ! entryExpired now e)).map
               (fun e => (e.filePath, e.addedAt.getD 0)),
             blacklistFileData := origFile }
         else
           { blacklist := (data.filter (fun e => ! entryExpired now e)).map (·.filePath),
             failureCounts := (data.filter (fun e => ! entryExpired now e)).map
               (fun e => (e.filePath, e.failureCount)),
             fileNames := (data.filter (fun e => ! entryExpired now e)).map
               (fun e => (e.filePath, e.fileName)),
             addedAtDates := (data.filter (fun e => ! entryExpired now e)).map
               (fun e => (e.filePath, e.addedAt.getD 0)),
             blacklistFileData := origFile }) := by
    rw [loadBlacklist, hfold]
    simp [emptyCtx]
  have hmaps : ∀ e ∈ data.filter (fun e => ! entryExpired now e),
      mapGet (loadBlacklist now data (emptyCtx origFile)).failureCounts e.filePath
        = some e.failureCount ∧
      mapGet (loadBlacklist now data (emptyCtx origFile)).fileNames e.filePath
        = some e.fileName ∧
      mapGet (loadBlacklist now data (emptyCtx origFile)).addedAtDates e.filePath
        = e.addedAt := by
    intro e he
    have hsome := (hw e (List.mem_of_mem_filter he)).2.2.2
    have hdt : e.addedAt = some (e.addedAt.getD 0) := by
      obtain ⟨t, ht⟩ := Option.isSome_iff_exists.mp hsome
      rw [ht]; rfl
    rw [hL]
    split_ifs <;>
      simp only [saveBlacklist_failureCounts, saveBlacklist_fileNames,
        saveBlacklist_addedAtDates] <;>
      exact ⟨mapGet_pairs (fun x => x.failureCount) _ e hkeepNodup he,
        mapGet_pairs (fun x => x.fileName) _ e hkeepNodup he,
        by rw [mapGet_pairs (fun x => x.addedAt.getD 0) _ e hkeepNodup he, ← hdt]⟩
  refine ⟨?_, hmaps, ?_⟩
  · rw [hL]
    split_ifs <;> rfl
  · have hrecon : ∀ e ∈ data.filter (fun x => ! entryExpired now x),
        ({ filePath := e.filePath,
           fileName := jsOrStr
             (mapGet ((data.filter (fun x => ! entryExpired now x)).map
               (fun x => (x.filePath, x.fileName))) e.filePath)
             (jsBasename e.filePath),
           addedAt := some ((mapGet ((data.filter (fun x => ! entryExpired now x)).map
               (fun x => (x.filePath, x.addedAt.getD 0))) e.filePath).getD now),
           failureCount := jsOrNat
             (mapGet ((data.filter (fun x => ! entryExpired now x)).map
               (fun x => (x.filePath, x.failureCount))) e.filePath)
             MAX_FAILURES_BEFORE_BLACKLIST } : BlacklistEntry) = e := by
      intro e he
      obtain ⟨hfp, hfn, hfc, hsome⟩ := hw e (List.mem_of_mem_filter he)
      obtain ⟨t, ht⟩ := Option.isSome_iff_exists.mp hsome
      rw [mapGet_pairs (fun x => x.fileName) _ e hkeepNodup he,
        mapGet_pairs (fun x => x.addedAt.getD 0) _ e hkeepNodup he,
        mapGet_pairs (fun x => x.failureCount) _ e hkeepNodup he]
      simp only [jsOrStr, jsOrNat, Option.getD_some]
      rw [if_neg hfn, if_neg hfc, ht]
      simp only [Option.getD_some]
      rw [← ht]
    have hsave : (saveBlacklist now
        { blacklist := (data.filter (fun e => ! entryExpired now e)).map (·.filePath),
          failureCounts := (data.filter (fun e => ! entryExpired now e)).map
            (fun e => (e.filePath, e.failureCount)),
          fileNames := (data.filter (fun e => ! entryExpired now e)).map
            (fun e => (e.filePath, e.fileName)),
          addedAtDates := (data.filter (fun e => ! entryExpired now e)).map
            (fun e => (e.filePath, e.addedAt.getD 0)),
          blacklistFileData := origFile }).blacklistFileData
        = data.filter (fun e => ! entryExpired now e) := by
      rw [saveBlacklist]
      simp only [List.map_map]
      exact (List.map_congr_left hrecon).trans (List.map_id _)
    rw [hL]
    by_cases hany : data.any (entryExpired now) = true
    · obtain ⟨x, hx, hpx⟩ := List.any_eq_true.mp hany
      have hpos : 0 < (data.filter (entryExpired now)).length :=
        List.length_pos.mpr (List.ne_nil_of_mem (List.mem_filter.mpr ⟨hx, hpx⟩))
      rw [if_pos hpos, hsave, if_pos hany]
    · have hnone : data.filter (entryExpired now) = [] := by
        rw [List.filter_eq_nil_iff]
        intro a ha
        intro hpa
        exact hany (List.any_eq_true.mpr ⟨a, ha, hpa⟩)
      rw [if_neg (by rw [hnone]; simp), if_neg hany]

/-- Witness for `c8_blacklist_load`: one fresh and one 3-day-old entry;
the stale one is dropped and the store re-persisted without it. -/
theorem c8_blacklist_load_witness :
    (loadBlacklist 259200000
      [{ filePath := "/a", fileName := "a.jpg", addedAt := some 200000000,
         failureCount := 5 },
       { filePath := "/b", fileName := "b.jpg", addedAt := some 1000,
         failureCount := 5 }]
      (emptyCtx [])).blacklist = ["/a"] ∧
    (loadBlacklist 259200000
      [{ filePath := "/a", fileName := "a.jpg", addedAt := some 200000000,
         failureCount := 5 },
       { filePath := "/b", fileName := "b.jpg", addedAt := some 1000,
         failureCount := 5 }]
      (emptyCtx [])).blacklistFileData
      = [{ filePath := "/a", fileName := "a.jpg", addedAt := some 200000000,
           failureCount := 5 }] := by
  have h := c8_blacklist_load 259200000 []
    [{ filePath := "/a", fileName := "a.jpg", addedAt := some 200000000,
       failureCount := 5 },
     { filePath := "/b", fileName := "b.jpg", addedAt := some 1000,
       failureCount := 5 }]
    (by decide) (by decide)
  refine ⟨?_, ?_⟩
  · rw [h.1]
    decide
  · rw [h.2.2]
    decide

theorem mapGet_append_some {α : Type} :
    ∀ (m1 m2 : List (String × α)) (k : String) (v : α), mapGet m1 k = some v →
      mapGet (m1 ++ m2) k = some v := by
  intro m1 m2 k v
  induction m1 with
  | nil => intro h; exact Option.noConfusion h
  | cons p rest ih =>
    obtain ⟨k', v'⟩ := p
    intro h
    rw [mapGet_cons] at h
    rw [List.cons_append, mapGet_cons]
    by_cases hk : k' = k
    · rwa [if_pos hk] at h ⊢
    · rw [if_neg hk] at h ⊢
      exact ih h

theorem mapGet_mapSet_self {α : Type} :
    ∀ (m : List (String × α)) (k : String) (v : α), mapGet (mapSet m k v) k = some v := by
  intro m k v
  induction m with
  | nil => simp [mapSet, mapGet_cons, mapGet]
  | cons p rest ih =>
    obtain ⟨k', v'⟩ := p
    rw [mapSet]
    by_cases hany : ((k', v') :: rest).any (fun p => p.1 = k) = true
    · rw [if_pos hany, List.map_cons]
      by_cases hk : k' = k
      · subst hk
        simp [mapGet_cons]
      · simp only [hk, if_false]
        rw [mapGet_cons, if_neg hk]
        have hrest : rest.any (fun p => p.1 = k) = true := by
          simpa [hk] using hany
        have := ih
        rw [mapSet, if_pos hrest] at this
        exact this
    · rw [if_neg hany]
      have hk : ¬ k' = k := by
        intro hc
        exact hany (by simp [hc])
      rw [List.cons_append, mapGet_cons, if_neg hk]
      have hrest : ¬ rest.any (fun p => p.1 = k) = true := by
        intro hc
        exact hany (by simp [List.any_cons, hc])
      have := ih
      rw [mapSet, if_neg hrest] at this
      exact this

theorem mapGet_mapSet_ne {α : Type} :
    ∀ (m : List (String × α)) (k q : String) (v : α), ¬ k = q →
      mapGet (mapSet m k v) q = mapGet m q := by
  have hmap : ∀ (m : List (String × α)) (k q : String) (v : α), ¬ k = q →
      mapGet (m.map (fun p => if p.1 = k then (k, v) else p)) q = mapGet m q := by
    intro m k q v hne
    induction m with
    | nil => rfl
    | cons p rest ih =>
      obtain ⟨k', v'⟩ := p
      rw [List.map_cons]
      by_cases hk : k' = k
      · simp only [hk, if_pos rfl]
        rw [mapGet_cons, mapGet_cons, if_neg hne, if_neg (hk ▸ hne)]
        exact ih
      · simp only [hk, if_false]
        rw [mapGet_cons, mapGet_cons]
        by_cases hq : k' = q
        · rw [if_pos hq, if_pos hq]
        · rw [if_neg hq, if_neg hq]
          exact ih
  intro m k q v hne
  rw [mapSet]
  by_cases hany : m.any (fun p => p.1 = k) = true
  · rw [if_pos hany]
    exact hmap m k q v hne
  · rw [if_neg hany]
    cases hq : mapGet m q with
    | some w => exact mapGet_append_some m _ q w hq
    | none =>
      rw [mapGet_append_of_none m _ q hq]
      exact mapGet_single_ne k q v hne

/-! ### `addToBlacklist` lemmas -/

theorem addToBlacklist_mem_self (now : Int) (ctx : Ctx) (fp fn : String) :
    fp ∈ (addToBlacklist now ctx fp fn).blacklist := by
  rw [addToBlacklist]
  by_cases h : ctx.blacklist.contains fp = true
  · rw [if_pos h]
    simpa using h
  · rw [if_neg h, saveBlacklist_blacklist]
    simp

theorem addToBlacklist_mem_mono (now : Int) (ctx : Ctx) (fp fn p : String)
    (h : p ∈ ctx.blacklist) : p ∈ (addToBlacklist now ctx fp fn).blacklist := by
  rw [addToBlacklist]
  by_cases hc : ctx.blacklist.contains fp = true
  · rwa [if_pos hc]
  · rw [if_neg hc, saveBlacklist_blacklist]
    simp [h]

theorem addToBlacklist_blacklist_sub (now : Int) (ctx : Ctx) (fp fn q : String)
    (h : q ∈ (addToBlacklist now ctx fp fn).blacklist) :
    q ∈ ctx.blacklist ∨ q = fp := by
  rw [addToBlacklist] at h
  by_cases hc : ctx.blacklist.contains fp = true
  · rw [if_pos hc] at h
    exact Or.inl h
  · rw [if_neg hc, saveBlacklist_blacklist] at h
    simpa using h

theorem addToBlacklist_counts_self (now : Int) (ctx : Ctx) (fp fn : String)
    (h : fp ∉ ctx.blacklist) :
    mapGet (addToBlacklist now ctx fp fn).failureCounts fp
      = some MAX_FAILURES_BEFORE_BLACKLIST := by
  rw [addToBlacklist, if_neg (by simpa using h), saveBlacklist_failureCounts]
  exact mapGet_mapSet_self _ _ _

theorem addToBlacklist_counts_other (now : Int) (ctx : Ctx) (fp fn p : String)
    (h : ¬ fp = p) :
    mapGet (addToBlacklist now ctx fp fn).failureCounts p
      = mapGet ctx.failureCounts p := by
  rw [addToBlacklist]
  by_cases hc : ctx.blacklist.contains fp = true
  · rw [if_pos hc]
  · rw [if_neg hc, saveBlacklist_failureCounts]
    exact mapGet_mapSet_ne _ _ _ _ h

theorem addToBlacklist_file_of_saved (now : Int) (ctx : Ctx) (fp fn q : String)
    (hfp : fp ∉ ctx.blacklist)
    (hq : q ∈ (addToBlacklist now ctx fp fn).blacklist)
    (hcq : mapGet (addToBlacklist now ctx fp fn).failureCounts q
      = some MAX_FAILURES_BEFORE_BLACKLIST) :
    ∃ be ∈ (addToBlacklist now ctx fp fn).blacklistFileData,
      be.filePath = q ∧ be.failureCount = MAX_FAILURES_BEFORE_BLACKLIST := by
  rw [addToBlacklist, if_neg (by simpa using hfp)] at hq hcq ⊢
  rw [saveBlacklist_blacklist] at hq
  rw [saveBlacklist_failureCounts] at hcq
  rw [saveBlacklist]
  refine ⟨_, List.mem_map_of_mem _ hq, rfl, ?_⟩
  simp only
  rw [hcq]
  rfl

theorem addToBlacklist_file_unchanged (now : Int) (ctx : Ctx) (fp fn : String)
    (hfp : fp ∈ ctx.blacklist) :
    (addToBlacklist now ctx fp fn).blacklistFileData = ctx.blacklistFileData := by
  rw [addToBlacklist, if_pos (by simpa using hfp)]

/-- The post-loop blacklisting property of one task. -/
def blacklistedWithMax (ctx : Ctx) (t : DownloadQueueEntry) : Prop :=
  t.filePath ∈ ctx.blacklist ∧
  mapGet ctx.failureCounts t.filePath = some MAX_FAILURES_BEFORE_BLACKLIST ∧
  ∃ be ∈ ctx.blacklistFileData, be.filePath = t.filePath
    ∧ be.failureCount = MAX_FAILURES_BEFORE_BLACKLIST

/-- Specification of the final `addToBlacklist` fold of
`downloadAllWithRetries` (lines 589-595): every processed task ends up in
the in-memory blacklist with failure count 5 and in the persisted store,
provided no still-failing task was already blacklisted (which the
orchestrator's filter guarantees). -/
theorem addAll_spec (now : Int) (ctx0 : Ctx) :
    ∀ (todo : List DownloadQueueEntry) (ctx : Ctx) (done : List DownloadQueueEntry),
      (∀ t ∈ done, blacklistedWithMax ctx t) →
      (∀ q ∈ ctx.blacklist, q ∈ ctx0.blacklist ∨ ∃ t ∈ done, t.filePath = q) →
      (∀ t ∈ todo, t.filePath ∉ ctx0.blacklist) →
      ∀ t ∈ done ++ todo,
        blacklistedWithMax
          (todo.foldl (fun c t => addToBlacklist now c t.filePath t.fileName) ctx) t := by
  intro todo
  induction todo with
  | nil =>
    intro ctx done hdone hsub htodo t ht
    rw [List.append_nil] at ht
    exact hdone t ht
  | cons x rest ih =>
    intro ctx done hdone hsub htodo t ht
    rw [List.foldl_cons]
    set ctx1 := addToBlacklist now ctx x.filePath x.fileName with hctx1
    have hx0 : x.filePath ∉ ctx0.blacklist := htodo x (List.mem_cons_self x rest)
    have hdone1 : ∀ s ∈ done ++ [x], blacklistedWithMax ctx1 s := by
      by_cases hmem : x.filePath ∈ ctx.blacklist
      · -- the path is already blacklisted: it must come from an earlier
        -- processed task, so `addToBlacklist` is a no-op
        have hctxeq : ctx1 = ctx := by
          rw [hctx1, addToBlacklist, if_pos (by simpa using hmem)]
        rcases hsub x.filePath hmem with h0 | ⟨s, hs, hsfp⟩
        · exact absurd h0 hx0
        · intro u hu
          rcases List.mem_append.mp hu with hu | hu
          · rw [hctxeq]; exact hdone u hu
          · rw [List.mem_singleton.mp hu, hctxeq]
            obtain ⟨h1, h2, h3⟩ := hdone s hs
            exact ⟨hsfp ▸ h1, hsfp ▸ h2, by
              obtain ⟨be, hbe, hbefp, hbec⟩ := h3
              exact ⟨be, hbe, hsfp ▸ hbefp, hbec⟩⟩
      · intro u hu
        have hucnt : mapGet ctx1.failureCounts u.filePath
            = some MAX_FAILURES_BEFORE_BLACKLIST := by
          rcases List.mem_append.mp hu with hu | hu
          · by_cases hufp : x.filePath = u.filePath
            · rw [hctx1, ← hufp]
              exact addToBlacklist_counts_self now ctx _ _ hmem
            · rw [hctx1, addToBlacklist_counts_other now ctx _ _ _ hufp]
              exact (hdone u hu).2.1
          · rw [List.mem_singleton.mp hu]
            exact addToBlacklist_counts_self now ctx _ _ hmem
        have humem : u.filePath ∈ ctx1.blacklist := by
          rcases List.mem_append.mp hu with hu | hu
          · exact addToBlacklist_mem_mono now ctx _ _ _ (hdone u hu).1
          · rw [List.mem_singleton.mp hu]
            exact addToBlacklist_mem_self now ctx _ _
        exact ⟨humem, hucnt,
          addToBlacklist_file_of_saved now ctx _ _ _ hmem humem hucnt⟩
    have hsub1 : ∀ q ∈ ctx1.blacklist, q ∈ ctx0.blacklist
        ∨ ∃ s ∈ done ++ [x], s.filePath = q := by
      intro q hq
      rcases addToBlacklist_blacklist_sub now ctx _ _ q hq with hq' | rfl
      · rcases hsub q hq' with h | ⟨s, hs, hsq⟩
        · exact Or.inl h
        · exact Or.inr ⟨s, List.mem_append_left _ hs, hsq⟩
      · exact Or.inr ⟨x, List.mem_append_right _ (List.mem_singleton_self x), rfl⟩
    have := ih ctx1 (done ++ [x]) hdone1 hsub1
      (fun s hs => htodo s (List.mem_cons_of_mem x hs)) t
    apply this
    rcases List.mem_append.mp ht with hd | hr
    · exact List.mem_append_left _ (List.mem_append_left _ hd)
    · rcases List.mem_cons.mp hr with rfl | hr
      · exact List.mem_append_left _ (List.mem_append_right _ (List.mem_singleton_self t))
      · exact List.mem_append_right _ hr

/-- Every task produced by the re-minting carries a
`dl-retry-{pass}-{counter}` identifier and the file path of a task of
the input queue. -/
theorem remintTaskIds_shape (p : Nat) :
    ∀ (q : List DownloadQueueEntry) (c : Nat),
      ∀ t ∈ (remintTaskIds p c q).1,
        (∃ s ∈ q, t.filePath = s.filePath) ∧
        ∃ c' : Nat, t.taskId = "dl-retry-" ++ toString p ++ "-" ++ toString c' := by
  intro q
  induction q with
  | nil => intro c t ht; exact absurd ht (List.not_mem_nil t)
  | cons e rest ih =>
    intro c t ht
    rw [remintTaskIds] at ht
    rcases List.mem_cons.mp ht with rfl | hrest
    · exact ⟨⟨e, List.mem_cons_self e rest, rfl⟩, c + 1, rfl⟩
    · obtain ⟨⟨s, hs, hfp⟩, c', hc'⟩ := ih (c + 1) t hrest
      exact ⟨⟨s, List.mem_cons_of_mem e hs, hfp⟩, c', hc'⟩

/-- One unfolding of the pass loop when it runs a pass. -/
theorem downloadPassLoop_step (cfg : DomainConfig) (fsExists : String → Bool)
    (env : DownloadQueueEntry → Nat → Nat → AttemptOutcome) (now : Int)
    (ctx : Ctx) (q : List DownloadQueueEntry) (cnt pass tc : Nat)
    (logs : List PassLog) (hc : q.length > 0 ∧ pass < MAX_RETRY_PASSES) :
    downloadPassLoop cfg fsExists env now ctx q cnt pass tc logs
      = (let reminted :=
           if pass + 1 > 1 then
             ((remintTaskIds (pass + 1) tc q).1, (remintTaskIds (pass + 1) tc q).2,
               some 5000)
           else (q, tc, (none : Option Nat));
         let result := downloadFiles cfg fsExists env now ctx reminted.1 cnt;
         downloadPassLoop cfg fsExists env now result.1
           (result.2.2.1.filter (fun t => ¬ result.1.blacklist.contains t.filePath))
           result.2.1 (pass + 1) reminted.2.1
           (logs ++ [{ waitedMs := reminted.2.2, ctxBefore := ctx, queue := reminted.1 }])) := by
  rw [downloadPassLoop.eq_def, dif_pos hc]

/-- One unfolding of the pass loop when it stops. -/
theorem downloadPassLoop_exit (cfg : DomainConfig) (fsExists : String → Bool)
    (env : DownloadQueueEntry → Nat → Nat → AttemptOutcome) (now : Int)
    (ctx : Ctx) (q : List DownloadQueueEntry) (cnt pass tc : Nat)
    (logs : List PassLog) (hc : ¬ (q.length > 0 ∧ pass < MAX_RETRY_PASSES)) :
    downloadPassLoop cfg fsExists env now ctx q cnt pass tc logs
      = (ctx, cnt, q, tc, logs) := by
  rw [downloadPassLoop.eq_def, dif_neg hc]

/-- The still-failing queue returned by the loop is filtered against the
blacklist of the context the loop returns. -/
theorem downloadPassLoop_failed_filtered (cfg : DomainConfig) (fsExists : String → Bool)
    (env : DownloadQueueEntry → Nat → Nat → AttemptOutcome) (now : Int) :
    ∀ (k : Nat) (ctx : Ctx) (q : List DownloadQueueEntry) (cnt pass tc : Nat)
      (logs : List PassLog), MAX_RETRY_PASSES - pass ≤ k →
      q.length > 0 → pass < MAX_RETRY_PASSES →
      ∀ t ∈ (downloadPassLoop cfg fsExists env now ctx q cnt pass tc logs).2.2.1,
        (downloadPassLoop cfg fsExists env now ctx q cnt pass tc logs).1.blacklist.contains
          t.filePath = false := by
  intro k
  induction k with
  | zero =>
    intro ctx q cnt pass tc logs hk hq hpass
    exact absurd hk (by simp only [MAX_RETRY_PASSES] at *; omega)
  | succ k ih =>
    intro ctx q cnt pass tc logs hk hq hpass
    rw [downloadPassLoop_step cfg fsExists env now ctx q cnt pass tc logs ⟨hq, hpass⟩]
    simp only
    set reminted :=
      if pass + 1 > 1 then
        ((remintTaskIds (pass + 1) tc q).1, (remintTaskIds (pass + 1) tc q).2, some 5000)
      else (q, tc, (none : Option Nat)) with hrem
    set result := downloadFiles cfg fsExists env now ctx reminted.1 cnt with hres
    set nq := result.2.2.1.filter (fun t => ¬ result.1.blacklist.contains t.filePath)
      with hnq
    by_cases hc2 : nq.length > 0 ∧ pass + 1 < MAX_RETRY_PASSES
    · exact ih result.1 nq result.2.1 (pass + 1) reminted.2.1 _ (by omega) hc2.1 hc2.2
    · rw [downloadPassLoop_exit cfg fsExists env now result.1 nq result.2.1 (pass + 1)
        reminted.2.1 _ hc2]
      intro t ht
      rw [hnq] at ht
      have := (List.mem_filter.mp ht).2
      simpa using this

/-- The loop runs at most `MAX_RETRY_PASSES - pass` further passes. -/
theorem downloadPassLoop_length (cfg : DomainConfig) (fsExists : String → Bool)
    (env : DownloadQueueEntry → Nat → Nat → AttemptOutcome) (now : Int) :
    ∀ (k : Nat) (ctx : Ctx) (q : List DownloadQueueEntry) (cnt pass tc : Nat)
      (logs : List PassLog), MAX_RETRY_PASSES - pass ≤ k →
      (downloadPassLoop cfg fsExists env now ctx q cnt pass tc logs).2.2.2.2.length
        ≤ logs.length + (MAX_RETRY_PASSES - pass) := by
  intro k
  induction k with
  | zero =>
    intro ctx q cnt pass tc logs hk
    by_cases hc : q.length > 0 ∧ pass < MAX_RETRY_PASSES
    · exact absurd hk (by omega)
    · rw [downloadPassLoop_exit cfg fsExists env now ctx q cnt pass tc logs hc]
      exact Nat.le_add_right _ _
  | succ k ih =>
    intro ctx q cnt pass tc logs hk
    by_cases hc : q.length > 0 ∧ pass < MAX_RETRY_PASSES
    · rw [downloadPassLoop_step cfg fsExists env now ctx q cnt pass tc logs hc]
      simp only
      refine le_trans (ih _ _ _ _ _ _ (by omega)) ?_
      simp only [List.length_append, List.length_singleton]
      omega
    · rw [downloadPassLoop_exit cfg fsExists env now ctx q cnt pass tc logs hc]
      exact Nat.le_add_right _ _

/-- The per-pass property of a retry pass at position `i` of the log
list: the pass was preceded by the 5-second wait, every task it ran had
a re-minted `dl-retry-{i+1}-{counter}` identifier, and none of its tasks
was blacklisted at the start of the pass. -/
def goodRetryLog (i : Nat) (lg : PassLog) : Prop :=
  lg.waitedMs = some 5000 ∧
  (∀ t ∈ lg.queue, lg.ctxBefore.blacklist.contains t.filePath = false) ∧
  (∀ t ∈ lg.queue, ∃ c : Nat,
    t.taskId = "dl-retry-" ++ toString (i + 1) ++ "-" ++ toString c)

/-- `goodRetryLog` at every retry-pass position (position 0 is the first
pass, which is exempt). -/
def retryLogOk (logs : List PassLog) (i : Nat) : Prop :=
  if h : 1 ≤ i ∧ i < logs.length then goodRetryLog i (logs.get ⟨i, h.2⟩) else True

theorem downloadPassLoop_logs_good (cfg : DomainConfig) (fsExists : String → Bool)
    (env : DownloadQueueEntry → Nat → Nat → AttemptOutcome) (now : Int) :
    ∀ (k : Nat) (ctx : Ctx) (q : List DownloadQueueEntry) (cnt pass tc : Nat)
      (logs : List PassLog), MAX_RETRY_PASSES - pass ≤ k →
      logs.length = pass →
      (1 ≤ pass → ∀ t ∈ q, ctx.blacklist.contains t.filePath = false) →
      (∀ i : Nat, retryLogOk logs i) →
      ∀ i : Nat,
        retryLogOk (downloadPassLoop cfg fsExists env now ctx q cnt pass tc logs).2.2.2.2 i := by
  intro k
  induction k with
  | zero =>
    intro ctx q cnt pass tc logs hk hlen hq hgood i
    by_cases hc : q.length > 0 ∧ pass < MAX_RETRY_PASSES
    · exact absurd hk (by omega)
    · rw [downloadPassLoop_exit cfg fsExists env now ctx q cnt pass tc logs hc]
      exact hgood i
  | succ k ih =>
    intro ctx q cnt pass tc logs hk hlen hq hgood i
    by_cases hc : q.length > 0 ∧ pass < MAX_RETRY_PASSES
    · rw [downloadPassLoop_step cfg fsExists env now ctx q cnt pass tc logs hc]
      simp only
      set reminted :=
        if pass + 1 > 1 then
          ((remintTaskIds (pass + 1) tc q).1, (remintTaskIds (pass + 1) tc q).2, some 5000)
        else (q, tc, (none : Option Nat)) with hrem
      set result := downloadFiles cfg fsExists env now ctx reminted.1 cnt with hres
      set lg : PassLog :=
        { waitedMs := reminted.2.2, ctxBefore := ctx, queue := reminted.1 } with hlg
      refine ih result.1 _ result.2.1 (pass + 1) reminted.2.1 (logs ++ [lg])
        (by omega) (by simp [hlen]) ?_ ?_ i
      · intro _ t ht
        have := (List.mem_filter.mp ht).2
        simpa using this
      · intro j
        rw [retryLogOk]
        by_cases hj : 1 ≤ j ∧ j < (logs ++ [lg]).length
        · rw [dif_pos hj]
          by_cases hjl : j < logs.length
          · have := hgood j
            rw [retryLogOk, dif_pos ⟨hj.1, hjl⟩] at this
            have hget : (logs ++ [lg]).get ⟨j, hj.2⟩ = logs.get ⟨j, hjl⟩ := by
              simp [List.getElem_append_left hjl]
            rw [hget]
            exact this
          · have hjeq : j = logs.length := by
              have := hj.2
              simp only [List.length_append, List.length_singleton] at this
              omega
            have hget : (logs ++ [lg]).get ⟨j, hj.2⟩ = lg := by
              subst hjeq
              simp
            rw [hget]
            have hpass1 : 1 ≤ pass := by omega
            have hq' := hq hpass1
            have hrem1 : reminted
                = ((remintTaskIds (pass + 1) tc q).1, (remintTaskIds (pass + 1) tc q).2,
                   some 5000) := by
              rw [hrem, if_pos (by omega)]
            refine ⟨by rw [hlg, hrem1], ?_, ?_⟩
            · intro t ht
              rw [hlg] at ht ⊢
              simp only at ht ⊢
              rw [hrem1] at ht
              obtain ⟨⟨s, hs, hsfp⟩, _⟩ :=
                remintTaskIds_shape (pass + 1) q tc t ht
              rw [hsfp]
              exact hq' s hs
            · intro t ht
              rw [hlg] at ht
              simp only at ht
              rw [hrem1] at ht
              obtain ⟨_, c', hc'⟩ := remintTaskIds_shape (pass + 1) q tc t ht
              exact ⟨c', by rw [hjeq, hlen]; exact hc'⟩
        · rw [dif_neg hj]
          trivial
    · rw [downloadPassLoop_exit cfg fsExists env now ctx q cnt pass tc logs hc]
      exact hgood i

/-- C4: `downloadAllWithRetries` runs at most `MAX_RETRY_PASSES` (3)
passes over the task set; every pass after the first waits 5 seconds,
re-mints task identifiers (`dl-retry-{pass}-{counter}`), and runs only
tasks not blacklisted at the start of the pass (mid-pass blacklisted
tasks are excluded from resubmission); and after the final pass every
still-failing task is unconditionally added to the blacklist, ending the
run in the in-memory blacklist with a recorded failure count of
`MAX_FAILURES_BEFORE_BLACKLIST` (= 5, hence ≥ 5) and present in the
persisted blacklist store with that failure count. -/
theorem c4_retry_orchestrator (cfg : DomainConfig) (fsExists : String → Bool)
    (env : DownloadQueueEntry → Nat → Nat → AttemptOutcome) (now : Int)
    (ctx : Ctx) (queue : List DownloadQueueEntry) :
    (downloadAllWithRetries cfg fsExists env now ctx queue).2.2.2.length
      ≤ MAX_RETRY_PASSES ∧
    (∀ i : Nat,
      retryLogOk (downloadAllWithRetries cfg fsExists env now ctx queue).2.2.2 i) ∧
    (downloadAllWithRetries cfg fsExists env now ctx queue).2.2.1.Forall
      (fun t =>
        blacklistedWithMax (downloadAllWithRetries cfg fsExists env now ctx queue).1 t) := by
  set r := downloadPassLoop cfg fsExists env now ctx queue 0 0 0 [] with hr
  have hd : downloadAllWithRetries cfg fsExists env now ctx queue
      = (r.2.2.1.foldl (fun c t => addToBlacklist now c t.filePath t.fileName) r.1,
         r.2.1, r.2.2.1, r.2.2.2.2) := rfl
  rw [hd]
  have hempty : ∀ i : Nat, retryLogOk [] i := by
    intro i
    rw [retryLogOk, dif_neg (by simp)]
    trivial
  refine ⟨?_, ?_, ?_⟩
  · have := downloadPassLoop_length cfg fsExists env now MAX_RETRY_PASSES ctx queue
      0 0 0 [] (by omega)
    simpa using this
  · intro i
    exact downloadPassLoop_logs_good cfg fsExists env now MAX_RETRY_PASSES ctx queue
      0 0 0 [] (by omega) rfl (by omega) hempty i
  · rw [List.forall_iff_forall_mem]
    intro t ht
    by_cases hq : queue.length > 0
    · have hfilt := downloadPassLoop_failed_filtered cfg fsExists env now
        MAX_RETRY_PASSES ctx queue 0 0 0 [] (by omega) hq (by decide)
      have hnotin : ∀ s ∈ r.2.2.1, s.filePath ∉ r.1.blacklist := by
        intro s hs
        simpa using hfilt s hs
      exact addAll_spec now r.1 r.2.2.1 r.1 []
        (fun s hs => absurd hs (List.not_mem_nil s))
        (fun p hp => Or.inl hp) hnotin t (by simpa using ht)
    · have hq0 : queue = [] := List.length_eq_zero.mp (by omega)
      have hexit : r = (ctx, 0, queue, 0, []) :=
        downloadPassLoop_exit cfg fsExists env now ctx queue 0 0 0 []
          (by rw [hq0]; simp)
      rw [hexit, hq0] at ht
      exact absurd ht (List.not_mem_nil t)

end KemonoScraper
